import Mathlib

/-!
Verification of the `agent-collab` repository against its natural-language
specification.  Python strings are modeled as lists of characters (`Str`),
Python dicts as association lists with insert-or-overwrite semantics, and the
external agent subprocesses as oracle functions supplied as parameters.
Machine integers from the JSON plans are modeled as `Int`.
-/

namespace AgentCollab

/-- A Python `str`, modeled as its list of characters. -/
abbrev Str := List Char

/-- Coerce a Lean string literal to the `Str` model. -/
def S (s : String) : Str := s.data

/-- The backtick character (code 96). -/
def btChar : Char := Char.ofNat 96

/-- The opening-brace character (code 123). -/
def lbrace : Char := Char.ofNat 123

/-- The closing-brace character (code 125). -/
def rbrace : Char := Char.ofNat 125

/-- The single-quote character (code 39). -/
def sqChar : Char := Char.ofNat 39

/-- ASCII whitespace as recognized by Python `str.strip` and the regex
class; the model covers the ASCII cases (space, tab, newline, carriage
return, vertical tab, form feed). -/
def isPySpace (c : Char) : Bool :=
  c = ' ' ∨ c = '\t' ∨ c = '\n' ∨ c = '\r' ∨ c = Char.ofNat 11 ∨ c = Char.ofNat 12

/-- Python `str.strip()`: drop whitespace from both ends. -/
def pyStrip (l : Str) : Str :=
  ((l.dropWhile isPySpace).reverse.dropWhile isPySpace).reverse

/-- Python `str.upper()` on ASCII text. -/
def pyUpper (l : Str) : Str := l.map Char.toUpper

/-- Python `sep.join(parts)`. -/
def pyJoin (sep : Str) : List Str → Str
  | [] => []
  | [x] => x
  | x :: y :: xs => x ++ sep ++ pyJoin sep (y :: xs)

/-- Python dict lookup `m.get(k)` on an association list. -/
def pyDictGet {α β : Type} [DecidableEq α] (m : List (α × β)) (k : α) : Option β :=
  (m.find? (fun p => p.1 = k)).map (fun p => p.2)

/-- Python dict assignment `m[k] = v`: overwrite in place if the key is
present, otherwise append at the end (insertion order). -/
def pyDictInsert {α β : Type} [DecidableEq α] (m : List (α × β)) (k : α) (v : β) :
    List (α × β) :=
  if m.any (fun p => p.1 = k) then m.map (fun p => if p.1 = k then (k, v) else p)
  else m ++ [(k, v)]

/-- A task of a plan, as produced by `planner.generate_plan` after field
normalisation (`executor.py` accesses exactly these keys). -/
structure Task where
  id : Int
  title : Str
  agent : Str
  prompt : Str
  depends_on : List Int
  parallel : Bool
deriving DecidableEq

/-- The ids of a task list, in order. -/
def idsOf (tasks : List Task) : List Int := tasks.map (fun t => t.id)

/-- The `id_map` dict of `_topo_sort`: maps an id to the task carrying it;
a later task with the same id overwrites an earlier one, as in the Python
dict comprehension. -/
def idMap (tasks : List Task) (tid : Int) : Option Task :=
  tasks.reverse.find? (fun t => t.id = tid)

/-- Pointwise function update, used to model the mutable `in_degree` dict. -/
def updFn (f : Int → Nat) (k : Int) (v : Nat) : Int → Nat :=
  fun x => if x = k then v else f x

/-- The initial `in_degree` dict: `{t["id"]: len(t.get("depends_on", []))}`,
later entries overwriting earlier ones.  Ids not bound by any task are
mapped to a junk value 0; the algorithm never reads them. -/
def initDeg (tasks : List Task) : Int → Nat :=
  tasks.foldl (fun d t => updFn d t.id t.depends_on.length) (fun _ => 0)

/-- One iteration of the inner removal loop of `_topo_sort`:
`remaining.remove(tid)` followed by decrementing the in-degree of every task
that lists `tid` among its dependencies and is still remaining. -/
def removeOne (tasks : List Task) (st : List Int × (Int → Nat)) (tid : Int) :
    List Int × (Int → Nat) :=
  let rem := st.1.erase tid
  let deg := tasks.foldl
    (fun d t => if tid ∈ t.depends_on ∧ t.id ∈ rem then updFn d t.id (d t.id - 1) else d)
    st.2
  (rem, deg)

/-- The whole `for tid in wave_ids` removal loop. -/
def removeWave (tasks : List Task) (st : List Int × (Int → Nat)) (wave : List Int) :
    List Int × (Int → Nat) :=
  wave.foldl (removeOne tasks) st

/-- `wave_ids`: the remaining ids of zero in-degree, or — cycle fallback —
all remaining ids. -/
def waveIds (remaining : List Int) (deg : Int → Nat) : List Int :=
  let zero := remaining.filter (fun tid => deg tid = 0)
  if zero.isEmpty then remaining else zero

/-- The `while remaining` loop of `_topo_sort`, producing waves of ids.
Python `sorted` is modeled by insertion sort (same output: the ascending
reordering).  The loop removes at least one id per iteration, so a fuel of
`remaining.length` is exact; fuel is used to keep the definition
structurally recursive. -/
def topoAuxF (tasks : List Task) : Nat → List Int → (Int → Nat) → List (List Int)
  | 0, _, _ => []
  | fuel + 1, remaining, deg =>
    if remaining.isEmpty then []
    else
      let wave := (waveIds remaining deg).insertionSort (fun a b => a ≤ b)
      let st := removeWave tasks (remaining, deg) wave
      wave :: topoAuxF tasks fuel st.1 st.2

/-- `executor._topo_sort`: tasks grouped into dependency waves.  The Python
`set` of remaining ids is modeled as the deduplicated id list; the output
does not depend on set iteration order because every wave is sorted and the
other uses of `remaining` are membership tests. -/
def _topo_sort (tasks : List Task) : List (List Task) :=
  let remaining := (idsOf tasks).dedup
  let ws := topoAuxF tasks remaining.length remaining (initDeg tasks)
  ws.map (fun w => w.filterMap (idMap tasks))

/-! ### Agents (`agents/base.py`, `agents/claude_agent.py`) -/

/-- The `AgentResult` dataclass.  `duration_s` is a float in Python; no claim
depends on its arithmetic, so it is modeled as a tick count. -/
structure AgentResult where
  agent_name : Str
  task : Str
  output : Str
  error : Str
  returncode : Int
  duration_s : Nat
deriving DecidableEq

/-- The `AgentResult.success` property: `returncode == 0`. -/
def AgentResult.success (r : AgentResult) : Bool := r.returncode = 0

/-- Outcome of a completed `subprocess.run`: captured stdout, stderr, exit code. -/
structure ProcResult where
  stdout : Str
  stderr : Str
  returncode : Int
deriving DecidableEq

/-- The not-found message of `ClaudeAgent.run` (built without source-level
quote characters). -/
def claudeNotFoundMsg : Str :=
  [sqChar] ++ S "claude" ++ [sqChar] ++ S " command not found. Is Claude Code installed?"

structure ClaudeAgent where
  permission_mode : Str
  extra_args : List Str

/-- The argv that `ClaudeAgent.run` passes to `subprocess.run`. -/
def claudeCmd (a : ClaudeAgent) (task : Str) : List Str :=
  [S "claude", S "--print", S "--permission-mode", a.permission_mode,
   S "--output-format", S "text"] ++ a.extra_args ++ [task]

/-- `ClaudeAgent.run`.  The subprocess is an oracle `subproc`; `none` models
`FileNotFoundError` (binary missing), `some` a completed process; `dur` is the
duration oracle.  The Python method catches the not-found error, so the model
is total. -/
def ClaudeAgent.run (a : ClaudeAgent) (subproc : List Str → Str → Option ProcResult)
    (task : Str) (cwd : Str) (dur : Nat) : AgentResult :=
  match subproc (claudeCmd a task) cwd with
  | some p =>
    { agent_name := S "claude", task := task, output := p.stdout, error := p.stderr,
      returncode := p.returncode, duration_s := dur }
  | none =>
    { agent_name := S "claude", task := task, output := [],
      error := claudeNotFoundMsg, returncode := 127, duration_s := dur }

/-! ### Session store (`session_store.py`) -/

/-- JSON values as written and read by `json.dump` / `json.load`. -/
inductive Json where
  | null : Json
  | bool : Bool → Json
  | int : Int → Json
  | str : Str → Json
  | arr : List Json → Json
  | obj : List (Str × Json) → Json

/-- The `Session` dataclass.  `plan` is `Optional[dict]` holding a JSON
object parsed by `json.loads`, hence string keys. -/
structure Session where
  id : Str
  type : Str
  goal : Str
  cwd : Str
  created_at : Str
  updated_at : Str
  status : Str
  plan : Option (List (Str × Json)) := none
  completed_task_ids : List Int := []
  task_outputs : List (Str × Str) := []
  research_state_path : Option Str := none
  current_round : Int := 0
  total_rounds : Int := 0

/-- `asdict(self)` in dataclass field order, as serialized by `Session.save`. -/
def Session.toJson (s : Session) : Json :=
  Json.obj
    [(S "id", Json.str s.id), (S "type", Json.str s.type), (S "goal", Json.str s.goal),
     (S "cwd", Json.str s.cwd), (S "created_at", Json.str s.created_at),
     (S "updated_at", Json.str s.updated_at), (S "status", Json.str s.status),
     (S "plan", match s.plan with | none => Json.null | some p => Json.obj p),
     (S "completed_task_ids", Json.arr (s.completed_task_ids.map Json.int)),
     (S "task_outputs", Json.obj (s.task_outputs.map (fun p => (p.1, Json.str p.2)))),
     (S "research_state_path",
       match s.research_state_path with | none => Json.null | some p => Json.str p),
     (S "current_round", Json.int s.current_round),
     (S "total_rounds", Json.int s.total_rounds)]

/-- `Session.save`: stamp `updated_at` with the current time, then write
`asdict(self)` as JSON.  Returns the mutated session and the file content. -/
def Session.save (s : Session) (now : Str) : Session × Json :=
  let s2 := { s with updated_at := now }
  (s2, s2.toJson)

def getField (j : Json) (k : Str) : Option Json :=
  match j with
  | Json.obj kvs => (kvs.find? (fun p => p.1 = k)).map (fun p => p.2)
  | _ => none

def asStr : Json → Option Str
  | Json.str s => some s
  | _ => none

def asInt : Json → Option Int
  | Json.int n => some n
  | _ => none

/-- Decode every element of a list, failing if any element fails. -/
def decodeList {α β : Type} (f : α → Option β) : List α → Option (List β)
  | [] => some []
  | a :: l =>
    match f a, decodeList f l with
    | some b, some bs => some (b :: bs)
    | _, _ => none

def asIntList : Json → Option (List Int)
  | Json.arr l => decodeList asInt l
  | _ => none

def asStrMap : Json → Option (List (Str × Str))
  | Json.obj kvs => decodeList (fun p => (asStr p.2).map (fun v => (p.1, v))) kvs
  | _ => none

def asOptObj : Json → Option (Option (List (Str × Json)))
  | Json.null => some none
  | Json.obj kvs => some (some kvs)
  | _ => none

def asOptStr : Json → Option (Option Str)
  | Json.null => some none
  | Json.str s => some (some s)
  | _ => none

/-- `Session.load`: reconstruct the `Session` from the JSON fields
(`cls(**data)`). -/
def Session.load (j : Json) : Option Session := do
  let id0 ← getField j (S "id") >>= asStr
  let type0 ← getField j (S "type") >>= asStr
  let goal0 ← getField j (S "goal") >>= asStr
  let cwd0 ← getField j (S "cwd") >>= asStr
  let created0 ← getField j (S "created_at") >>= asStr
  let updated0 ← getField j (S "updated_at") >>= asStr
  let status0 ← getField j (S "status") >>= asStr
  let plan0 ← getField j (S "plan") >>= asOptObj
  let ctids ← getField j (S "completed_task_ids") >>= asIntList
  let touts ← getField j (S "task_outputs") >>= asStrMap
  let rsp ← getField j (S "research_state_path") >>= asOptStr
  let cr ← getField j (S "current_round") >>= asInt
  let tr ← getField j (S "total_rounds") >>= asInt
  pure { id := id0, type := type0, goal := goal0, cwd := cwd0, created_at := created0,
         updated_at := updated0, status := status0, plan := plan0,
         completed_task_ids := ctids, task_outputs := touts,
         research_state_path := rsp, current_round := cr, total_rounds := tr }

/-- `Session.mark_task_done`: append the id when new, store the output under
the stringified id, and stamp `updated_at` through the `save()` call. -/
def Session.mark_task_done (s : Session) (task_id : Int) (output : Str) (now : Str) :
    Session :=
  { s with
    completed_task_ids :=
      if task_id ∈ s.completed_task_ids then s.completed_task_ids
      else s.completed_task_ids ++ [task_id],
    task_outputs := pyDictInsert s.task_outputs (toString task_id).data output,
    updated_at := now }

/-! ### Context building and `execute_plan` (`executor.py`) -/

/-- The per-dependency paragraph of `_build_context_prefix`: present exactly
when the dependency has a completed result with a non-blank output; the
stripped output is cut at 2000 characters with a truncation marker. -/
def depPart (completed : List (Int × AgentResult)) (dep_id : Int) : Option Str :=
  match pyDictGet completed dep_id with
  | none => none
  | some res =>
    let out0 := pyStrip res.output
    if out0 = [] then none
    else
      let out := if 2000 < out0.length then out0.take 2000 ++ S "\n... [truncated]"
        else out0
      some (S "=== Output from Task " ++ (toString dep_id).data ++ S " (" ++
        pyUpper res.agent_name ++ S ") ===\n" ++ out)

/-- `executor._build_context_prefix`. -/
def _build_context_prefix (completed : List (Int × AgentResult)) (depends_on : List Int)
    (additional_context : Str) : Str :=
  let parts : List Str :=
    (if additional_context ≠ [] ∧ pyStrip additional_context ≠ [] then
      [S "=== Global Instructions ===\n" ++ pyStrip additional_context] else [])
    ++ depends_on.filterMap (depPart completed)
  if parts = [] then []
  else pyJoin (S "\n\n") parts ++ S "\n\n--- Your task ---\n"

/-- The plan dict fields read by `execute_plan` and `_save_results`. -/
structure Plan where
  goal : Str
  tasks : List Task
  additional_context : Str
deriving DecidableEq

/-- `agent_map.get(t["agent"], claude)`: codex for `"codex"`, claude for
everything else. -/
def runAgent (claudeRun codexRun : Str → Str → AgentResult) (agentName : Str) :
    Str → Str → AgentResult :=
  if agentName = S "codex" then codexRun else claudeRun

/-- Run one task (`_run_task_with_spinner`): the full prompt is the context
prefix concatenated with the task prompt; the spinner is terminal-only. -/
def execTask (claudeRun codexRun : Str → Str → AgentResult) (cwd : Str) (addCtx : Str)
    (ctxMap : List (Int × AgentResult)) (t : Task) : AgentResult :=
  runAgent claudeRun codexRun t.agent
    ( _build_context_prefix ctxMap t.depends_on addCtx ++ t.prompt) cwd

/-- One wave of `execute_plan`: drop skipped tasks, split into parallel and
serial parts; parallel tasks all build their context from the pre-wave
completed map (before any thread starts) and are recorded in task order after
the join; serial tasks run sequentially against the accumulating map. -/
def execWave (claudeRun codexRun : Str → Str → AgentResult) (cwd : Str) (addCtx : Str)
    (skip : List Int) (completed : List (Int × AgentResult)) (wave : List Task) :
    List (Int × AgentResult) :=
  let todo := wave.filter (fun t => ¬ t.id ∈ skip)
  let par := todo.filter (fun t => t.parallel ∧ 1 < todo.length)
  let ser := todo.filter (fun t => ¬ t.parallel ∨ todo.length = 1)
  let afterPar := par.foldl
    (fun c t => pyDictInsert c t.id (execTask claudeRun codexRun cwd addCtx completed t))
    completed
  ser.foldl
    (fun c t => pyDictInsert c t.id (execTask claudeRun codexRun cwd addCtx c t))
    afterPar

/-- The resume prepopulation of `completed` from session outputs.  The Python
code iterates a set of skip ids; the iteration order only affects dict
insertion order, never lookups. -/
def initCompleted (tasks : List Task) (session : Option Session) (skip : List Int) :
    List (Int × AgentResult) :=
  match session with
  | none => []
  | some sess =>
    skip.foldl
      (fun c tid =>
        let cached := (pyDictGet sess.task_outputs (toString tid).data).getD []
        match tasks.find? (fun t => t.id = tid) with
        | some tobj =>
          if cached ≠ [] then
            pyDictInsert c tid
              { agent_name := tobj.agent, task := tobj.prompt, output := cached,
                error := [], returncode := 0, duration_s := 0 }
          else c
        | none => c)
      []

/-- `executor.execute_plan` (the returned completed dict; terminal printing,
session checkpointing and the results file are separate effects). -/
def execute_plan (claudeRun codexRun : Str → Str → AgentResult) (plan : Plan)
    (cwd : Str) (session : Option Session) (skip : List Int) :
    List (Int × AgentResult) :=
  (_topo_sort plan.tasks).foldl
    (execWave claudeRun codexRun cwd plan.additional_context skip)
    (initCompleted plan.tasks session skip)

/-! ### Parallel pool (`research/parallel_pool.py`, `research/state.py`) -/

structure PoolTask where
  role : Str
  agent : Str
  prompt : Str
deriving DecidableEq

structure AgentOutput where
  agent : Str
  role : Str
  output : Str
  duration_s : Nat
  success : Bool
  error : Str
deriving DecidableEq

/-- The worker body of `ParallelPool.run`: claude for agent `"claude"`,
codex otherwise. -/
def poolWorkerRes (claudeRun codexRun : Str → Str → AgentResult) (cwd : Str)
    (t : PoolTask) : AgentResult :=
  (if t.agent = S "claude" then claudeRun else codexRun) t.prompt cwd

/-- The `results` dict once every started worker has been joined: each worker
stores `(task, res)` under the lock at `results[task.role]`. -/
def poolRecorded (claudeRun codexRun : Str → Str → AgentResult) (cwd : Str)
    (tasks : List PoolTask) : List (Str × (PoolTask × AgentResult)) :=
  tasks.foldl
    (fun m t => pyDictInsert m t.role (t, poolWorkerRes claudeRun codexRun cwd t)) []

/-- The output built for one input task: agent and role are copied from the
task; a role with no recorded entry yields the `No result` placeholder. -/
def poolOutputOf (results : Str → Option (PoolTask × AgentResult))
    (task : PoolTask) : AgentOutput :=
  match results task.role with
  | none =>
    { agent := task.agent, role := task.role, output := [], duration_s := 0,
      success := false, error := S "No result" }
  | some pr =>
    { agent := task.agent, role := task.role, output := pr.2.output,
      duration_s := pr.2.duration_s, success := pr.2.success, error := pr.2.error }

/-- The output-assembly loop of `ParallelPool.run`: one `AgentOutput` per
input task, in input order. -/
def poolOutputs (tasks : List PoolTask)
    (results : Str → Option (PoolTask × AgentResult)) : List AgentOutput :=
  tasks.map (poolOutputOf results)

/-- `ParallelPool.run` with `synthesize=False` and `criticize=False` (both
flag-guarded branches are skipped). -/
def ParallelPool.run (claudeRun codexRun : Str → Str → AgentResult) (cwd : Str)
    (tasks : List PoolTask) : List AgentOutput :=
  if tasks = [] then []
  else poolOutputs tasks
    (fun role => pyDictGet (poolRecorded claudeRun codexRun cwd tasks) role)

/-! ### JSON extraction (`planner._extract_json`) -/

def startsFence : Str → Bool
  | c1 :: c2 :: c3 :: _ => c1 = btChar ∧ c2 = btChar ∧ c3 = btChar
  | _ => false

/-- The lazy capture scan: the capture ends at the first closing brace that is
followed by whitespace and a closing fence; earlier closing braces become part
of the capture. -/
def findClose : Str → Str → Option Str
  | [], _ => none
  | c :: rest, acc =>
    if c = rbrace ∧ startsFence (rest.dropWhile isPySpace) then
      some (lbrace :: acc.reverse ++ [rbrace])
    else findClose rest (c :: acc)

/-- Match the pattern body after the fence and optional label: whitespace,
an opening brace, then the lazy capture. -/
def matchBody (rest : Str) : Option Str :=
  match rest.dropWhile isPySpace with
  | c :: body => if c = lbrace then findClose body [] else none
  | [] => none

/-- Attempt the regex match starting exactly here: an opening fence, then the
greedy-first optional `json` label, then the body. -/
def fenceFrom (l : Str) : Option Str :=
  match l with
  | c1 :: c2 :: c3 :: rest =>
    if c1 = btChar ∧ c2 = btChar ∧ c3 = btChar then
      match (if rest.take 4 = S "json" then matchBody (rest.drop 4) else none) with
      | some cap => some cap
      | none => matchBody rest
    else none
  | _ => none

/-- `re.search` for the fence pattern: the leftmost matching position wins. -/
def fenceSearch : Str → Option Str
  | [] => none
  | c :: rest =>
    match fenceFrom (c :: rest) with
    | some cap => some cap
    | none => fenceSearch rest

/-- The depth-counting scan of `_extract_json`, started at the first opening
brace with depth 0: the slice ends inclusively at the closing brace that
brings the depth back to zero, otherwise the empty string. -/
def braceLoop : Str → Int → Str → Str
  | [], _, _ => []
  | c :: rest, depth, acc =>
    let d := if c = lbrace then depth + 1 else if c = rbrace then depth - 1 else depth
    if c = rbrace ∧ d = 0 then (c :: acc).reverse
    else braceLoop rest d (c :: acc)

/-- `planner._extract_json`. -/
def _extract_json (l : Str) : Str :=
  match fenceSearch l with
  | some cap => cap
  | none =>
    match l.dropWhile (fun c => ¬ c = lbrace) with
    | [] => []
    | t => braceLoop t 0 []

/-! ### Results file (`executor._save_results`) -/

/-- The lines one completed task contributes to the results file. -/
def secLines (t : Task) (res : AgentResult) : List Str :=
  [S "## Task " ++ (toString t.id).data ++ S ": " ++ t.title ++ S " [" ++
     pyUpper t.agent ++ S "]",
   [], S "**Prompt:** " ++ t.prompt, [], S "**Output:**", S "```",
   pyStrip res.output, S "```", []]

/-- `executor._save_results`: the markdown text written to the results file
(the timestamped file name is not modeled; `dateStr` is the date oracle). -/
def _save_results (plan : Plan) (completed : List (Int × AgentResult)) (dateStr : Str) :
    Str :=
  let header : List Str :=
    [S "# agent-collab Results\n", S "**Goal:** " ++ plan.goal ++ S "\n",
     S "**Date:** " ++ dateStr ++ S "\n", []]
  let lines := header ++ plan.tasks.foldl
    (fun acc t => acc ++ (match pyDictGet completed t.id with
      | none => []
      | some res => secLines t res)) []
  pyJoin (S "\n") lines

/-- The body of the decrement loop in `_topo_sort`. -/
def decStep (tid : Int) (rem : List Int) (d : Int → Nat) (t : Task) : Int → Nat :=
  if tid ∈ t.depends_on ∧ t.id ∈ rem then updFn d t.id (d t.id - 1) else d

/-- The in-degree invariant of the topo-sort loop: for every remaining id the
stored degree counts the dependencies of its task that are still remaining. -/
def DegInv (tasks : List Task) (rem : List Int) (deg : Int → Nat) : Prop :=
  ∀ tid ∈ rem, ∀ t, tasks.find? (fun u => u.id = tid) = some t →
    deg tid = (t.depends_on.filter (fun d => d ∈ rem)).length

/-- A dependency-acyclic task list with a duplicated entry in a
`depends_on` list: task 2 depends on task 1 twice. -/
def c1t1 : Task := ⟨1, S "a", S "claude", S "p1", [], false⟩

def c1t2 : Task := ⟨2, S "b", S "codex", S "p2", [1, 1], false⟩

def c1t3 : Task := ⟨3, S "c", S "claude", S "p3", [2], false⟩

def c1tasks : List Task := [c1t1, c1t2, c1t3]

def c1rank : Int → Nat := fun i => i.toNat

def w1t1 : Task := ⟨1, S "design", S "claude", S "p1", [], false⟩

def w1t2 : Task := ⟨2, S "implement", S "codex", S "p2", [1], true⟩

def w1t3 : Task := ⟨3, S "test", S "codex", S "p3", [1], true⟩

def w1t4 : Task := ⟨4, S "review", S "claude", S "p4", [2, 3], false⟩

def w1tasks : List Task := [w1t1, w1t2, w1t3, w1t4]

def w1rank : Int → Nat := fun i => i.toNat

def c8taskA : Task := ⟨1, S "first", S "claude", S "pa", [], false⟩

def c8taskB : Task := ⟨1, S "second", S "codex", S "pb", [], false⟩

def c8tasks : List Task := [c8taskA, c8taskB]

def w8t1 : Task := ⟨1, S "x", S "claude", S "p1", [2], false⟩

def w8t2 : Task := ⟨2, S "y", S "codex", S "p2", [1], false⟩

def w8tasks : List Task := [w8t1, w8t2]

def w5agent : ClaudeAgent := ⟨S "bypassPermissions", []⟩

def w5proc : ProcResult := ⟨S "the output", S "the stderr", 0⟩

def w5ok : List Str → Str → Option ProcResult := fun _ _ => some w5proc

def w5missing : List Str → Str → Option ProcResult := fun _ _ => none

def w9session : Session :=
  { id := S "20250101_000000_demo", type := S "planning", goal := S "demo goal",
    cwd := S ".", created_at := S "2025-01-01 00:00:00",
    updated_at := S "2025-01-01 00:00:00", status := S "in_progress",
    completed_task_ids := [1], task_outputs := [(S "1", S "out one")] }

def w3task : PoolTask := ⟨S "researcher", S "claude", S "dig into it"⟩

def w3run : Str → Str → AgentResult :=
  fun p _ => { agent_name := S "claude", task := p, output := S "found it",
               error := [], returncode := 0, duration_s := 2 }

def w10res : AgentResult :=
  { agent_name := S "claude", task := S "t", output := S "  hello world  ",
    error := [], returncode := 0, duration_s := 1 }

def w10completed : List (Int × AgentResult) := [(7, w10res)]

/-! ### C7: `_save_results` -/

/-- The text block one completed task contributes to the results file:
title with id and upper-cased agent, the prompt, and the stripped output in a
code fence. -/
def specSection (t : Task) (res : AgentResult) : Str :=
  S "## Task " ++ (toString t.id).data ++ S ": " ++ t.title ++ S " [" ++
    pyUpper t.agent ++ S "]" ++ S "\n\n" ++ S "**Prompt:** " ++ t.prompt ++ S "\n\n" ++
    S "**Output:**" ++ S "\n" ++ S "```" ++ S "\n" ++ pyStrip res.output ++ S "\n" ++
    S "```" ++ S "\n"

def w2t1 : Task := ⟨1, S "one", S "claude", S "first prompt", [], false⟩

def w2t2 : Task := ⟨2, S "two", S "codex", S "second prompt", [1], false⟩

def w2plan : Plan := ⟨S "demo", [w2t1, w2t2], []⟩

def w2run : Str → Str → AgentResult :=
  fun p _ => { agent_name := S "claude", task := p, output := S "done",
               error := [], returncode := 0, duration_s := 1 }

/-! ### C4: `_extract_json` — the brace-balancing branch -/

/-- Brace balance of a string: count of opening minus closing braces. -/
def dep (p : Str) : Int := (p.count lbrace : Int) - (p.count rbrace : Int)

/-- Contribution of one character to the running depth. -/
def charStep (c : Char) : Int :=
  if c = lbrace then 1 else if c = rbrace then -1 else 0

/-- The claim-side balance predicate: position `k` closes the brace slice,
i.e. the counts of opening and closing braces agree on the inclusive prefix. -/
def balancedAt (t : Str) (k : Nat) : Prop :=
  k < t.length ∧ (t.take (k+1)).count lbrace = (t.take (k+1)).count rbrace

instance (t : Str) (k : Nat) : Decidable (balancedAt t k) := by
  unfold balancedAt
  infer_instance

/-! ### C4: `_extract_json` — the fence branch -/

/-- The specification-side reading of the fence pattern: somewhere in the
string there is an opening fence, an optional `json` label, optional
whitespace, a brace-delimited capture, optional whitespace and a closing
fence. -/
def SpecFenceMatch (l cap : Str) : Prop :=
  ∃ pre lab ws1 mid ws2 post,
    l = pre ++ S "```" ++ lab ++ ws1 ++ (lbrace :: mid ++ [rbrace]) ++ ws2 ++
      S "```" ++ post ∧
    (lab = [] ∨ lab = S "json") ∧
    (∀ c ∈ ws1, isPySpace c = true) ∧
    (∀ c ∈ ws2, isPySpace c = true) ∧
    cap = lbrace :: mid ++ [rbrace]

def w4mid : Str := S "k: 1"

def w4cap : Str := lbrace :: w4mid ++ [rbrace]

def w4a : Str := S "x " ++ S "```" ++ S "json" ++ S " " ++ w4cap ++ S " " ++
  S "```" ++ S " y"

def w4b : Str := S "nofence " ++ [lbrace] ++ S "a" ++ [rbrace] ++ S " z"

/-! ### Helper lemmas about `_topo_sort` -/

/-- With duplicate-free ids, a task is determined by its id. -/
lemma id_inj {tasks : List Task} (hnd : (idsOf tasks).Nodup) :
    ∀ a ∈ tasks, ∀ b ∈ tasks, a.id = b.id → a = b := by
  intro a ha b hb hab
  exact List.inj_on_of_nodup_map hnd ha hb hab

lemma find?_id_eq {tasks : List Task} {tid : Int} (h : tid ∈ idsOf tasks) :
    ∃ t, tasks.find? (fun u => u.id = tid) = some t ∧ t.id = tid ∧ t ∈ tasks := by
  have hs : (tasks.find? (fun u => u.id = tid)).isSome := by
    rw [List.find?_isSome]
    obtain ⟨t, ht, rfl⟩ := List.mem_map.mp h
    exact ⟨t, ht, by simp⟩
  obtain ⟨t, ht⟩ := Option.isSome_iff_exists.mp hs
  exact ⟨t, ht, by simpa using List.find?_some ht, List.mem_of_find?_eq_some ht⟩

lemma idMap_some {tasks : List Task} {tid : Int} (h : tid ∈ idsOf tasks) :
    ∃ t, idMap tasks tid = some t ∧ t.id = tid ∧ t ∈ tasks := by
  have hs : (tasks.reverse.find? (fun u => u.id = tid)).isSome := by
    rw [List.find?_isSome]
    obtain ⟨t, ht, rfl⟩ := List.mem_map.mp h
    exact ⟨t, by simpa using ht, by simp⟩
  obtain ⟨t, ht⟩ := Option.isSome_iff_exists.mp hs
  refine ⟨t, ht, by simpa using List.find?_some ht, ?_⟩
  have := List.mem_of_find?_eq_some ht
  simpa using this

lemma idMap_eq_of_mem {tasks : List Task} (hnd : (idsOf tasks).Nodup) {t : Task}
    (ht : t ∈ tasks) : idMap tasks t.id = some t := by
  obtain ⟨t2, h2, hid2, hmem2⟩ := idMap_some (List.mem_map_of_mem (fun u => u.id) ht)
  rwa [id_inj hnd t2 hmem2 t ht hid2] at h2

lemma find?_eq_of_mem {tasks : List Task} (hnd : (idsOf tasks).Nodup) {t : Task}
    (ht : t ∈ tasks) : tasks.find? (fun u => u.id = t.id) = some t := by
  obtain ⟨t2, h2, hid2, hmem2⟩ := find?_id_eq (List.mem_map_of_mem (fun u => u.id) ht)
  rwa [id_inj hnd t2 hmem2 t ht hid2] at h2

lemma foldl_updFn_not_mem {ts : List Task} {x : Int} (h : x ∉ idsOf ts) :
    ∀ f : Int → Nat, ts.foldl (fun d t => updFn d t.id t.depends_on.length) f x = f x := by
  induction ts with
  | nil => intro f; rfl
  | cons u ts ih =>
    intro f
    simp only [idsOf, List.map_cons, List.mem_cons, not_or] at h
    rw [List.foldl_cons, ih (by simp [idsOf, h.2])]
    exact if_neg h.1

/-- The initial in-degree of a task id is the length of its dependency list. -/
lemma initDeg_eq {tasks : List Task} (hnd : (idsOf tasks).Nodup) :
    ∀ {t : Task}, t ∈ tasks → initDeg tasks t.id = t.depends_on.length := by
  suffices h : ∀ ts : List Task, (idsOf ts).Nodup → ∀ f : Int → Nat, ∀ t ∈ ts,
      ts.foldl (fun d u => updFn d u.id u.depends_on.length) f t.id = t.depends_on.length by
    intro t ht; exact h tasks hnd _ t ht
  intro ts
  induction ts with
  | nil => simp
  | cons u ts ih =>
    intro hnd f t ht
    simp only [idsOf, List.map_cons, List.nodup_cons] at hnd
    rcases List.mem_cons.mp ht with rfl | ht
    · rw [List.foldl_cons, foldl_updFn_not_mem hnd.1]
      simp [updFn]
    · rw [List.foldl_cons]
      exact ih hnd.2 _ t ht

lemma removeOne_eq (tasks : List Task) (st : List Int × (Int → Nat)) (tid : Int) :
    removeOne tasks st tid = (st.1.erase tid, tasks.foldl (decStep tid (st.1.erase tid)) st.2) := by
  rfl

lemma decStep_apply_ne (tid : Int) (rem : List Int) (d : Int → Nat) (u : Task) {x : Int}
    (h : u.id ≠ x) : decStep tid rem d u x = d x := by
  unfold decStep
  split
  · exact if_neg (fun hx => h hx.symm)
  · rfl

lemma foldl_decStep_not_mem {ts : List Task} {x : Int} (h : x ∉ idsOf ts) (tid : Int)
    (rem : List Int) : ∀ f : Int → Nat, ts.foldl (decStep tid rem) f x = f x := by
  induction ts with
  | nil => intro f; rfl
  | cons u ts ih =>
    intro f
    simp only [idsOf, List.map_cons, List.mem_cons, not_or] at h
    rw [List.foldl_cons, ih (by simp [idsOf, h.2])]
    exact decStep_apply_ne tid rem f u (fun he => h.1 he.symm)

lemma foldl_decStep_eval {tasks : List Task} (hnd : (idsOf tasks).Nodup) {t : Task}
    (ht : t ∈ tasks) (tid : Int) (rem : List Int) :
    ∀ f : Int → Nat, tasks.foldl (decStep tid rem) f t.id =
      if tid ∈ t.depends_on ∧ t.id ∈ rem then f t.id - 1 else f t.id := by
  induction tasks with
  | nil => cases ht
  | cons u ts ih =>
    intro f
    simp only [idsOf, List.map_cons, List.nodup_cons] at hnd
    rcases List.mem_cons.mp ht with rfl | ht
    · rw [List.foldl_cons, foldl_decStep_not_mem hnd.1]
      unfold decStep
      split
      · simp [updFn]
      · rfl
    · have hne : u.id ≠ t.id := by
        intro he
        exact hnd.1 (he ▸ List.mem_map_of_mem (fun v => v.id) ht)
      rw [List.foldl_cons, ih hnd.2 ht]
      rw [decStep_apply_ne tid rem f u hne]

lemma initDeg_deginv {tasks : List Task} (hnd : (idsOf tasks).Nodup)
    (hclosed : ∀ t ∈ tasks, ∀ d ∈ t.depends_on, d ∈ idsOf tasks) :
    DegInv tasks (idsOf tasks).dedup (initDeg tasks) := by
  intro tid htid t hft
  have hmem : t ∈ tasks := List.mem_of_find?_eq_some hft
  have hid : t.id = tid := by simpa using List.find?_some hft
  rw [← hid, initDeg_eq hnd hmem]
  have : t.depends_on.filter (fun d => d ∈ (idsOf tasks).dedup) = t.depends_on := by
    rw [List.filter_eq_self]
    intro d hd
    simpa [List.mem_dedup] using hclosed t hmem d hd
  rw [this]

lemma removeOne_deginv {tasks : List Task} (hnd : (idsOf tasks).Nodup)
    (hdeps : ∀ t ∈ tasks, t.depends_on.Nodup)
    {rem : List Int} (hrem : rem.Nodup) {deg : Int → Nat} {tid : Int} (htid : tid ∈ rem)
    (hinv : DegInv tasks rem deg) :
    DegInv tasks (rem.erase tid) (removeOne tasks (rem, deg) tid).2 := by
  intro x hx t hft
  have hx2 : x ≠ tid ∧ x ∈ rem := (hrem.mem_erase_iff).mp hx
  have hmem : t ∈ tasks := List.mem_of_find?_eq_some hft
  have hid : t.id = x := by simpa using List.find?_some hft
  have base := hinv x hx2.2 t hft
  subst hid
  show List.foldl (decStep tid (rem.erase tid)) deg tasks t.id = _
  rw [foldl_decStep_eval hnd hmem, base]
  by_cases hc : tid ∈ t.depends_on
  · rw [if_pos ⟨hc, hx⟩]
    have hfe : t.depends_on.filter (fun d => d ∈ rem.erase tid) =
        (t.depends_on.filter (fun d => d ∈ rem)).filter (fun d => d != tid) := by
      rw [List.filter_filter]
      apply List.filter_congr
      intro d _
      rw [Bool.eq_iff_iff]
      simp only [decide_eq_true_eq, Bool.and_eq_true, bne_iff_ne]
      rw [hrem.mem_erase_iff]
    rw [hfe]
    have hnd2 : (t.depends_on.filter (fun d => d ∈ rem)).Nodup :=
      (hdeps t hmem).filter _
    have htid2 : tid ∈ t.depends_on.filter (fun d => d ∈ rem) :=
      List.mem_filter.mpr ⟨hc, by simpa using htid⟩
    rw [← hnd2.erase_eq_filter, List.length_erase_of_mem htid2]
  · rw [if_neg (fun hco => hc hco.1)]
    congr 1
    apply List.filter_congr
    intro d hd
    rw [Bool.eq_iff_iff]
    simp only [decide_eq_true_eq]
    have hne : d ≠ tid := fun he => hc (he ▸ hd)
    exact (List.mem_erase_of_ne hne).symm

lemma removeWave_rem (tasks : List Task) :
    ∀ (wave : List Int) (st : List Int × (Int → Nat)),
      (removeWave tasks st wave).1 = st.1.diff wave := by
  intro wave
  induction wave with
  | nil => intro st; simp [removeWave, List.diff_nil]
  | cons a w ih =>
    intro st
    show (removeWave tasks (removeOne tasks st a) w).1 = _
    rw [ih, removeOne_eq, List.diff_cons]

lemma removeWave_deginv {tasks : List Task} (hnd : (idsOf tasks).Nodup)
    (hdeps : ∀ t ∈ tasks, t.depends_on.Nodup) :
    ∀ (wave : List Int) (rem : List Int) (deg : Int → Nat), rem.Nodup → wave.Nodup →
      (∀ x ∈ wave, x ∈ rem) → DegInv tasks rem deg →
      DegInv tasks (rem.diff wave) (removeWave tasks (rem, deg) wave).2 := by
  intro wave
  induction wave with
  | nil => intro rem deg _ _ _ hinv; simpa [removeWave, List.diff_nil] using hinv
  | cons a w ih =>
    intro rem deg hrem hwave hsub hinv
    have ha : a ∈ rem := hsub a (List.mem_cons_self a w)
    have hwn : w.Nodup := (List.nodup_cons.mp hwave).2
    have han : a ∉ w := (List.nodup_cons.mp hwave).1
    have step : DegInv tasks (rem.erase a) (removeOne tasks (rem, deg) a).2 :=
      removeOne_deginv hnd hdeps hrem ha hinv
    have hsub2 : ∀ x ∈ w, x ∈ rem.erase a := by
      intro x hx
      have hne : x ≠ a := fun he => han (he ▸ hx)
      exact (List.mem_erase_of_ne hne).mpr (hsub x (List.mem_cons_of_mem a hx))
    have hih := ih (rem.erase a) (removeOne tasks (rem, deg) a).2 (hrem.erase a) hwn hsub2 step
    rw [List.diff_cons]
    show DegInv tasks ((rem.erase a).diff w)
      (removeWave tasks (removeOne tasks (rem, deg) a) w).2
    have hpair : removeOne tasks (rem, deg) a =
        (rem.erase a, (removeOne tasks (rem, deg) a).2) := rfl
    rw [hpair] at hih ⊢
    exact hih

lemma sub_perm_diff : ∀ (w rem : List Int), w.Nodup → (∀ x ∈ w, x ∈ rem) →
    (w ++ rem.diff w).Perm rem := by
  intro w
  induction w with
  | nil => intro rem _ _; simp [List.diff_nil]
  | cons a w ih =>
    intro rem hnd hsub
    have ha : a ∈ rem := hsub a (List.mem_cons_self a w)
    have han : a ∉ w := (List.nodup_cons.mp hnd).1
    have hsub2 : ∀ x ∈ w, x ∈ rem.erase a := by
      intro x hx
      have hne : x ≠ a := fun he => han (he ▸ hx)
      exact (List.mem_erase_of_ne hne).mpr (hsub x (List.mem_cons_of_mem a hx))
    have h1 : (w ++ (rem.erase a).diff w).Perm (rem.erase a) :=
      ih (rem.erase a) (List.nodup_cons.mp hnd).2 hsub2
    rw [List.diff_cons, List.cons_append]
    exact (h1.cons a).trans (List.perm_cons_erase ha).symm

lemma diff_perm_nil : ∀ (w rem : List Int), rem.Perm w → rem.diff w = [] := by
  intro w
  induction w with
  | nil => intro rem h; rw [h.eq_nil, List.diff_nil]
  | cons a w ih =>
    intro rem h
    have ha : a ∈ rem := h.mem_iff.mpr (List.mem_cons_self a w)
    have h2 : (rem.erase a).Perm w := by
      have := (List.perm_cons_erase ha).symm.trans h
      exact this.cons_inv
    rw [List.diff_cons]
    exact ih _ h2

lemma topoAuxF_nil (tasks : List Task) : ∀ fuel deg, topoAuxF tasks fuel [] deg = [] := by
  intro fuel deg
  cases fuel <;> rfl

lemma waveIds_subset (rem : List Int) (deg : Int → Nat) :
    ∀ x ∈ waveIds rem deg, x ∈ rem := by
  intro x hx
  simp only [waveIds] at hx
  split at hx
  · exact hx
  · exact (List.mem_filter.mp hx).1

lemma waveIds_nodup {rem : List Int} (hnd : rem.Nodup) (deg : Int → Nat) :
    (waveIds rem deg).Nodup := by
  simp only [waveIds]
  split
  · exact hnd
  · exact hnd.filter _

lemma waveIds_ne_nil {rem : List Int} (deg : Int → Nat) (h : rem ≠ []) :
    waveIds rem deg ≠ [] := by
  simp only [waveIds]
  split
  · exact h
  · rename_i hne
    intro hcon
    rw [hcon] at hne
    exact hne rfl

lemma waveIds_eq_filter {rem : List Int} {deg : Int → Nat}
    (h : rem.filter (fun tid => deg tid = 0) ≠ []) :
    waveIds rem deg = rem.filter (fun tid => deg tid = 0) := by
  simp only [waveIds]
  rw [if_neg]
  intro hcon
  exact h (List.isEmpty_iff.mp hcon)

lemma waveIds_eq_rem {rem : List Int} {deg : Int → Nat}
    (h : rem.filter (fun tid => deg tid = 0) = []) :
    waveIds rem deg = rem := by
  simp only [waveIds]
  rw [if_pos]
  exact List.isEmpty_iff.mpr h

lemma topoAuxF_cons {tasks : List Task} {fuel : Nat} {rem : List Int} {deg : Int → Nat}
    (h : rem ≠ []) :
    topoAuxF tasks (fuel + 1) rem deg =
      (waveIds rem deg).insertionSort (fun a b => a ≤ b) ::
        topoAuxF tasks fuel
          (rem.diff ((waveIds rem deg).insertionSort (fun a b => a ≤ b)))
          (removeWave tasks (rem, deg)
            ((waveIds rem deg).insertionSort (fun a b => a ≤ b))).2 := by
  have hne : rem.isEmpty = false := by
    cases rem
    · exact absurd rfl h
    · rfl
  show (if rem.isEmpty then [] else _) = _
  rw [hne]
  simp only [Bool.false_eq_true, if_false]
  rw [removeWave_rem tasks _ (rem, deg)]

lemma topoAux_perm (tasks : List Task) :
    ∀ (fuel : Nat) (rem : List Int) (deg : Int → Nat), rem.length ≤ fuel → rem.Nodup →
      ((topoAuxF tasks fuel rem deg).flatten.Perm rem)
      ∧ (∀ w ∈ topoAuxF tasks fuel rem deg, w.Nodup ∧ w.Sorted (fun a b => a < b)) := by
  intro fuel
  induction fuel with
  | zero =>
    intro rem deg hlen _
    have hr : rem = [] := List.length_eq_zero.mp (Nat.le_zero.mp hlen)
    subst hr
    simp [topoAuxF]
  | succ fuel ih =>
    intro rem deg hlen hnd
    by_cases hrem : rem = []
    · subst hrem
      simp [topoAuxF_nil]
    · rw [topoAuxF_cons hrem]
      set wave := (waveIds rem deg).insertionSort (fun a b => a ≤ b) with hw
      have hperm : wave.Perm (waveIds rem deg) := List.perm_insertionSort _ _
      have hwsub : ∀ x ∈ wave, x ∈ rem :=
        fun x hx => waveIds_subset rem deg x (hperm.mem_iff.mp hx)
      have hwnodup : wave.Nodup := hperm.symm.nodup (waveIds_nodup hnd deg)
      have hwne : wave ≠ [] := by
        intro hcon
        rw [hcon] at hperm
        exact waveIds_ne_nil deg hrem hperm.symm.eq_nil
      have hdifflen : (rem.diff wave).length ≤ fuel := by
        obtain ⟨a, w2, hcons⟩ := List.exists_cons_of_ne_nil hwne
        have ha : a ∈ rem := hwsub a (hcons ▸ List.mem_cons_self a w2)
        have h1 : (rem.diff wave).length ≤ (rem.erase a).length := by
          rw [hcons, List.diff_cons]
          exact (List.diff_sublist _ _).length_le
        rw [List.length_erase_of_mem ha] at h1
        omega
      have hdiffnodup : (rem.diff wave).Nodup := (List.diff_sublist _ _).nodup hnd
      obtain ⟨ihp, ihs⟩ := ih (rem.diff wave) _ hdifflen hdiffnodup
      constructor
      · rw [List.flatten_cons]
        exact (List.Perm.append_left wave ihp).trans (sub_perm_diff wave rem hwnodup hwsub)
      · intro w hmem
        rcases List.mem_cons.mp hmem with rfl | hmem
        · refine ⟨hwnodup, ?_⟩
          have hs : List.Sorted (fun a b => (a : Int) ≤ b) wave :=
            List.sorted_insertionSort _ _
          exact (hs.and hwnodup).imp (fun hab => lt_of_le_of_ne hab.1 hab.2)
        · exact ihs w hmem

lemma exists_zero_deg {tasks : List Task}
    (rank : Int → Nat) (hrank : ∀ t ∈ tasks, ∀ d ∈ t.depends_on, rank d < rank t.id)
    {rem : List Int} {deg : Int → Nat}
    (hsub : ∀ x ∈ rem, x ∈ idsOf tasks) (hinv : DegInv tasks rem deg) (hne : rem ≠ []) :
    rem.filter (fun tid => deg tid = 0) ≠ [] := by
  obtain ⟨m, hm⟩ : ∃ m, m ∈ rem.argmin rank := by
    cases h : rem.argmin rank with
    | none => exact absurd (List.argmin_eq_none.mp h) hne
    | some m => exact ⟨m, by simp [h]⟩
  have hmem : m ∈ rem := List.argmin_mem hm
  have hdeg : deg m = 0 := by
    by_contra h0
    obtain ⟨t, hft, hid, htm⟩ := find?_id_eq (hsub m hmem)
    have hI := hinv m hmem t hft
    have hfil : t.depends_on.filter (fun d => d ∈ rem) ≠ [] := by
      intro hcon
      rw [hcon] at hI
      exact h0 (by simpa using hI)
    obtain ⟨d, hd⟩ := List.exists_mem_of_ne_nil _ hfil
    obtain ⟨hd1, hd2⟩ := List.mem_filter.mp hd
    have hlt : rank d < rank m := hid ▸ hrank t htm d hd1
    exact absurd (List.le_of_mem_argmin (by simpa using hd2) hm) (not_le.mpr hlt)
  exact List.ne_nil_of_mem (List.mem_filter.mpr ⟨hmem, by simpa using hdeg⟩)

lemma topoAux_order {tasks : List Task} (hnd : (idsOf tasks).Nodup)
    (hdeps : ∀ t ∈ tasks, t.depends_on.Nodup)
    (rank : Int → Nat) (hrank : ∀ t ∈ tasks, ∀ d ∈ t.depends_on, rank d < rank t.id) :
    ∀ (fuel : Nat) (rem : List Int) (deg : Int → Nat), rem.length ≤ fuel → rem.Nodup →
      (∀ x ∈ rem, x ∈ idsOf tasks) → DegInv tasks rem deg →
      ∀ (i : Nat) (w : List Int), (topoAuxF tasks fuel rem deg)[i]? = some w →
        ∀ tid ∈ w, ∀ t, t ∈ tasks → t.id = tid → ∀ d ∈ t.depends_on, d ∈ rem →
          ∃ (j : Nat) (w2 : List Int), j < i ∧
            (topoAuxF tasks fuel rem deg)[j]? = some w2 ∧ d ∈ w2 := by
  intro fuel
  induction fuel with
  | zero =>
    intro rem deg hlen hrnd hsub hinv i w hw
    simp [topoAuxF] at hw
  | succ fuel ih =>
    intro rem deg hlen hrnd hsub hinv i w hw tid htid t ht hid d hd hdrem
    by_cases hrem : rem = []
    · subst hrem
      rw [topoAuxF_nil] at hw
      simp at hw
    · have hzne := exists_zero_deg rank hrank hsub hinv hrem
      have hzeq := waveIds_eq_filter hzne
      rw [topoAuxF_cons hrem] at hw ⊢
      set wave := (waveIds rem deg).insertionSort (fun a b => a ≤ b) with hwv
      have hperm : wave.Perm (waveIds rem deg) := List.perm_insertionSort _ _
      have hwsub : ∀ x ∈ wave, x ∈ rem :=
        fun x hx => waveIds_subset rem deg x (hperm.mem_iff.mp hx)
      have hwnodup : wave.Nodup := hperm.symm.nodup (waveIds_nodup hrnd deg)
      have hwne : wave ≠ [] := by
        intro hcon
        rw [hcon] at hperm
        exact waveIds_ne_nil deg hrem hperm.symm.eq_nil
      have hdifflen : (rem.diff wave).length ≤ fuel := by
        obtain ⟨a, w2, hcons⟩ := List.exists_cons_of_ne_nil hwne
        have ha : a ∈ rem := hwsub a (hcons ▸ List.mem_cons_self a w2)
        have h1 : (rem.diff wave).length ≤ (rem.erase a).length := by
          rw [hcons, List.diff_cons]
          exact (List.diff_sublist _ _).length_le
        rw [List.length_erase_of_mem ha] at h1
        omega
      have hdiffnodup : (rem.diff wave).Nodup := (List.diff_sublist _ _).nodup hrnd
      have hdiffsub : ∀ x ∈ rem.diff wave, x ∈ idsOf tasks :=
        fun x hx => hsub x ((List.diff_sublist _ _).subset hx)
      have hinv2 : DegInv tasks (rem.diff wave) (removeWave tasks (rem, deg) wave).2 :=
        removeWave_deginv hnd hdeps wave rem deg hrnd hwnodup hwsub hinv
      cases i with
      | zero =>
        have hweq : w = wave := by
          rw [List.getElem?_cons_zero] at hw
          exact (Option.some_inj.mp hw).symm
        subst hweq
        have hdeg0 : deg tid = 0 := by
          have hmz := hperm.mem_iff.mp htid
          rw [hzeq] at hmz
          simpa using (List.mem_filter.mp hmz).2
        have hft : tasks.find? (fun u => u.id = tid) = some t :=
          hid ▸ find?_eq_of_mem hnd ht
        have hI := hinv tid (waveIds_subset rem deg tid (hperm.mem_iff.mp htid)) t hft
        rw [hdeg0] at hI
        have hfil : t.depends_on.filter (fun x => x ∈ rem) = [] :=
          List.length_eq_zero.mp hI.symm
        have hnin : ¬ d ∈ rem := by simpa using List.filter_eq_nil_iff.mp hfil d hd
        exact absurd hdrem hnin
      | succ i0 =>
        rw [List.getElem?_cons_succ] at hw
        by_cases hdw : d ∈ wave
        · exact ⟨0, wave, Nat.zero_lt_succ i0, List.getElem?_cons_zero, hdw⟩
        · have hdrem2 : d ∈ rem.diff wave := by
            have hmem := (sub_perm_diff wave rem hwnodup hwsub).symm.mem_iff.mp hdrem
            rcases List.mem_append.mp hmem with h1 | h1
            · exact absurd h1 hdw
            · exact h1
          obtain ⟨j0, w2, hlt, hj0get, hmem⟩ :=
            ih (rem.diff wave) _ hdifflen hdiffnodup hdiffsub hinv2 i0 w hw tid htid
              t ht hid d hd hdrem2
          exact ⟨j0 + 1, w2, Nat.succ_lt_succ hlt, by simpa using hj0get, hmem⟩

lemma nodup_flatten_unique {α : Type} : ∀ (ws : List (List α)), ws.flatten.Nodup →
    ∀ (i j : Nat) (wi wj : List α) (a : α), ws[i]? = some wi → ws[j]? = some wj →
      a ∈ wi → a ∈ wj → i = j := by
  intro ws
  induction ws with
  | nil => intro _ i j wi wj a h; simp at h
  | cons w ws ih =>
    intro hnd i j wi wj a hi hj hai haj
    rw [List.flatten_cons, List.nodup_append] at hnd
    obtain ⟨hw, hws, hdisj⟩ := hnd
    cases i with
    | zero =>
      cases j with
      | zero => rfl
      | succ j0 =>
        rw [List.getElem?_cons_zero] at hi
        rw [List.getElem?_cons_succ] at hj
        obtain rfl := Option.some_inj.mp hi
        have hmem : a ∈ ws.flatten :=
          List.mem_flatten.mpr ⟨wj, List.getElem?_mem hj, haj⟩
        exact absurd hmem (hdisj hai)
    | succ i0 =>
      cases j with
      | zero =>
        rw [List.getElem?_cons_zero] at hj
        rw [List.getElem?_cons_succ] at hi
        obtain rfl := Option.some_inj.mp hj
        have hmem : a ∈ ws.flatten :=
          List.mem_flatten.mpr ⟨wi, List.getElem?_mem hi, hai⟩
        exact absurd hmem (hdisj haj)
      | succ j0 =>
        rw [List.getElem?_cons_succ] at hi hj
        exact congrArg Nat.succ (ih hws i0 j0 wi wj a hi hj hai haj)

lemma flatten_map_filterMap (f : Int → Option Task) :
    ∀ ws : List (List Int), (ws.map (fun w => w.filterMap f)).flatten = ws.flatten.filterMap f := by
  intro ws
  induction ws with
  | nil => rfl
  | cons w ws ih =>
    rw [List.map_cons, List.flatten_cons, List.flatten_cons, List.filterMap_append, ih]

lemma filterMap_idMap_ids {tasks : List Task} (hnd : (idsOf tasks).Nodup) :
    (idsOf tasks).filterMap (idMap tasks) = tasks := by
  show (tasks.map (fun t => t.id)).filterMap (idMap tasks) = tasks
  rw [List.filterMap_map]
  have hcg : ∀ t ∈ tasks, (idMap tasks ∘ fun t => t.id) t = (some ∘ id) t := by
    intro t ht
    exact idMap_eq_of_mem hnd ht
  rw [List.filterMap_congr hcg, List.filterMap_eq_map, List.map_id]

lemma map_id_filterMap {tasks : List Task} :
    ∀ w : List Int, (∀ tid ∈ w, tid ∈ idsOf tasks) →
      (w.filterMap (idMap tasks)).map (fun t => t.id) = w := by
  intro w
  induction w with
  | nil => intro _; rfl
  | cons tid w ih =>
    intro h
    obtain ⟨t, heq, hid, _⟩ := idMap_some (h tid (List.mem_cons_self tid w))
    rw [List.filterMap_cons, heq]
    rw [List.map_cons, hid, ih (fun x hx => h x (List.mem_cons_of_mem tid hx))]

lemma mem_filterMap_idMap {tasks : List Task} {w : List Int} {t : Task}
    (h : t ∈ w.filterMap (idMap tasks)) : t.id ∈ w ∧ t ∈ tasks := by
  obtain ⟨tid, htid, heq⟩ := List.mem_filterMap.mp h
  have hid : t.id = tid := by simpa using List.find?_some heq
  have hmem : t ∈ tasks := by simpa using List.mem_of_find?_eq_some heq
  exact ⟨hid ▸ htid, hmem⟩

/-! ### Claim theorems for `_topo_sort` -/

/-- C1 (amended): for tasks with pairwise distinct ids and duplicate-free
`depends_on` lists, whose dependency relation is acyclic (witnessed by a rank
function) and mentions only ids of tasks in the list, `_topo_sort` partitions
the tasks into waves (the concatenation of the waves is a permutation of the
tasks, and each task occurs exactly once in it), every task sits in a wave
strictly after the waves of all its dependencies, and inside each wave tasks
are listed in strictly ascending id order. -/
theorem topo_sort_waves_partition_order_sorted (tasks : List Task) (rank : Int → Nat)
    (hids : (idsOf tasks).Nodup)
    (hdeps : ∀ t ∈ tasks, t.depends_on.Nodup)
    (hclosed : ∀ t ∈ tasks, ∀ d ∈ t.depends_on, d ∈ idsOf tasks)
    (hrank : ∀ t ∈ tasks, ∀ d ∈ t.depends_on, rank d < rank t.id) :
    ((_topo_sort tasks).flatten.Perm tasks)
    ∧ (∀ t ∈ tasks, (_topo_sort tasks).flatten.count t = 1)
    ∧ (∀ w ∈ _topo_sort tasks, (w.map (fun t => t.id)).Sorted (fun a b => a < b))
    ∧ (∀ (i j : Nat) (wi wj : List Task) (t t2 : Task),
        (_topo_sort tasks)[i]? = some wi → (_topo_sort tasks)[j]? = some wj →
        t ∈ wi → t2 ∈ wj → t2.id ∈ t.depends_on → j < i) := by
  have hdedup : (idsOf tasks).dedup = idsOf tasks := List.dedup_eq_self.mpr hids
  have htopo : _topo_sort tasks =
      (topoAuxF tasks (idsOf tasks).length (idsOf tasks) (initDeg tasks)).map
        (fun w => w.filterMap (idMap tasks)) := by
    show (topoAuxF tasks ((idsOf tasks).dedup).length ((idsOf tasks).dedup)
        (initDeg tasks)).map (fun w => w.filterMap (idMap tasks)) = _
    rw [hdedup]
  set ws := topoAuxF tasks (idsOf tasks).length (idsOf tasks) (initDeg tasks) with hws
  obtain ⟨hperm, hsorted⟩ :=
    topoAux_perm tasks (idsOf tasks).length (idsOf tasks) (initDeg tasks) (le_refl _) hids
  have hinv0 : DegInv tasks (idsOf tasks) (initDeg tasks) := by
    have h0 := initDeg_deginv hids hclosed
    rwa [hdedup] at h0
  have hwssub : ∀ w ∈ ws, ∀ x ∈ w, x ∈ idsOf tasks := by
    intro w hw x hx
    exact hperm.mem_iff.mp (List.mem_flatten.mpr ⟨w, hw, hx⟩)
  have hfilt : (idsOf tasks).filterMap (idMap tasks) = tasks := filterMap_idMap_ids hids
  have hflat : (_topo_sort tasks).flatten.Perm tasks := by
    rw [htopo, flatten_map_filterMap]
    have h1 := List.Perm.filterMap (idMap tasks) hperm
    exact h1.trans (by rw [hfilt])
  have htnodup : tasks.Nodup := List.Nodup.of_map _ hids
  refine ⟨hflat, ?_, ?_, ?_⟩
  · intro t ht
    rw [hflat.count_eq t]
    exact List.count_eq_one_of_mem htnodup ht
  · intro w hw
    rw [htopo] at hw
    obtain ⟨w0, hw0, rfl⟩ := List.mem_map.mp hw
    rw [map_id_filterMap w0 (hwssub w0 hw0)]
    exact (hsorted w0 hw0).2
  · intro i j wi wj t t2 hi hj hti ht2j hdep
    rw [htopo, List.getElem?_map] at hi hj
    obtain ⟨w0i, hw0i, hwieq⟩ : ∃ w0, ws[i]? = some w0 ∧ wi = w0.filterMap (idMap tasks) := by
      cases hwsi : ws[i]? with
      | none => rw [hwsi] at hi; simp at hi
      | some w0 => rw [hwsi] at hi; exact ⟨w0, rfl, by simpa using hi.symm⟩
    obtain ⟨w0j, hw0j, hwjeq⟩ : ∃ w0, ws[j]? = some w0 ∧ wj = w0.filterMap (idMap tasks) := by
      cases hwsj : ws[j]? with
      | none => rw [hwsj] at hj; simp at hj
      | some w0 => rw [hwsj] at hj; exact ⟨w0, rfl, by simpa using hj.symm⟩
    obtain ⟨htid_i, htmem⟩ := mem_filterMap_idMap (hwieq ▸ hti)
    obtain ⟨ht2id_j, ht2mem⟩ := mem_filterMap_idMap (hwjeq ▸ ht2j)
    have hd2rem : t2.id ∈ idsOf tasks := List.mem_map_of_mem (fun u => u.id) ht2mem
    obtain ⟨j0, w2, hj0lt, hj0get, hd2mem⟩ :=
      topoAux_order hids hdeps rank hrank (idsOf tasks).length (idsOf tasks)
        (initDeg tasks) (le_refl _) hids (fun x hx => hx) hinv0 i w0i hw0i t.id htid_i
        t htmem rfl t2.id hdep hd2rem
    have hfnodup : ws.flatten.Nodup := hperm.symm.nodup hids
    have hjj0 : j = j0 :=
      nodup_flatten_unique ws hfnodup j j0 w0j w2 t2.id hw0j hj0get ht2id_j hd2mem
    rw [hjj0]
    exact hj0lt

/-- C8 (amended): for every task list with pairwise distinct ids — cycles and
dangling dependency ids allowed — `_topo_sort` is total and every input task
appears in exactly one wave; moreover whenever no remaining id has zero
in-degree, the loop dumps all remaining ids as one single sorted wave. -/
theorem topo_sort_total_and_cycle_dump (tasks : List Task)
    (hids : (idsOf tasks).Nodup) :
    ((_topo_sort tasks).flatten.Perm tasks)
    ∧ (∀ t ∈ tasks, (_topo_sort tasks).flatten.count t = 1)
    ∧ (∀ (rem : List Int) (deg : Int → Nat) (fuel : Nat), rem.length ≤ fuel → rem ≠ [] →
        (∀ tid ∈ rem, deg tid ≠ 0) →
        topoAuxF tasks fuel rem deg = [rem.insertionSort (fun a b => a ≤ b)]) := by
  have hdedup : (idsOf tasks).dedup = idsOf tasks := List.dedup_eq_self.mpr hids
  have htopo : _topo_sort tasks =
      (topoAuxF tasks (idsOf tasks).length (idsOf tasks) (initDeg tasks)).map
        (fun w => w.filterMap (idMap tasks)) := by
    show (topoAuxF tasks ((idsOf tasks).dedup).length ((idsOf tasks).dedup)
        (initDeg tasks)).map (fun w => w.filterMap (idMap tasks)) = _
    rw [hdedup]
  obtain ⟨hperm, _⟩ :=
    topoAux_perm tasks (idsOf tasks).length (idsOf tasks) (initDeg tasks) (le_refl _) hids
  have hfilt : (idsOf tasks).filterMap (idMap tasks) = tasks := filterMap_idMap_ids hids
  have hflat : (_topo_sort tasks).flatten.Perm tasks := by
    rw [htopo, flatten_map_filterMap]
    have h1 := List.Perm.filterMap (idMap tasks) hperm
    exact h1.trans (by rw [hfilt])
  have htnodup : tasks.Nodup := List.Nodup.of_map _ hids
  refine ⟨hflat, ?_, ?_⟩
  · intro t ht
    rw [hflat.count_eq t]
    exact List.count_eq_one_of_mem htnodup ht
  · intro rem deg fuel hlen hne hnz
    cases fuel with
    | zero => exact absurd (List.length_eq_zero.mp (Nat.le_zero.mp hlen)) hne
    | succ fuel =>
      rw [topoAuxF_cons hne]
      have hfil : rem.filter (fun tid => deg tid = 0) = [] := by
        rw [List.filter_eq_nil_iff]
        intro a ha
        simpa using hnz a ha
      rw [waveIds_eq_rem hfil]
      have hdn : rem.diff (rem.insertionSort (fun a b => a ≤ b)) = [] :=
        diff_perm_nil _ rem (List.perm_insertionSort _ _).symm
      rw [hdn, topoAuxF_nil]

/-- C1 as frozen is false: on `c1tasks` the ids are distinct, the dependency
relation is acyclic (ranked by `c1rank`) and closed, yet because task 2 lists
dependency 1 twice its in-degree never reaches zero, the cycle fallback fires,
and tasks 2 and 3 land in the same wave even though task 3 depends on task 2. -/
theorem topo_sort_dup_deps_counterexample :
    ((idsOf c1tasks).Nodup
     ∧ (∀ t ∈ c1tasks, ∀ d ∈ t.depends_on, d ∈ idsOf c1tasks)
     ∧ (∀ t ∈ c1tasks, ∀ d ∈ t.depends_on, c1rank d < c1rank t.id))
    ∧ ¬ (∀ (i j : Nat) (wi wj : List Task) (t t2 : Task),
          (_topo_sort c1tasks)[i]? = some wi → (_topo_sort c1tasks)[j]? = some wj →
          t ∈ wi → t2 ∈ wj → t2.id ∈ t.depends_on → j < i) := by
  constructor
  · exact ⟨by decide, by decide, by decide⟩
  · intro h
    exact absurd
      (h 1 1 [c1t2, c1t3] [c1t2, c1t3] c1t3 c1t2 (by decide) (by decide)
        (by decide) (by decide) (by decide))
      (by decide)

/-- Witness for the amended C1 at a concrete four-task diamond plan. -/
theorem topo_sort_waves_partition_order_sorted_witness :
    ((idsOf w1tasks).Nodup
     ∧ (∀ t ∈ w1tasks, t.depends_on.Nodup)
     ∧ (∀ t ∈ w1tasks, ∀ d ∈ t.depends_on, d ∈ idsOf w1tasks)
     ∧ (∀ t ∈ w1tasks, ∀ d ∈ t.depends_on, w1rank d < w1rank t.id))
    ∧ (((_topo_sort w1tasks).flatten.Perm w1tasks)
       ∧ (∀ t ∈ w1tasks, (_topo_sort w1tasks).flatten.count t = 1)
       ∧ (∀ w ∈ _topo_sort w1tasks, (w.map (fun t => t.id)).Sorted (fun a b => a < b))
       ∧ (∀ (i j : Nat) (wi wj : List Task) (t t2 : Task),
           (_topo_sort w1tasks)[i]? = some wi → (_topo_sort w1tasks)[j]? = some wj →
           t ∈ wi → t2 ∈ wj → t2.id ∈ t.depends_on → j < i)) :=
  ⟨⟨by decide, by decide, by decide, by decide⟩,
   topo_sort_waves_partition_order_sorted w1tasks w1rank (by decide) (by decide)
     (by decide) (by decide)⟩

/-- C8 as frozen is false for duplicate ids: with two distinct tasks that share
id 1, the first task appears in no wave at all (the id map keeps only the
later task). -/
theorem topo_sort_dup_ids_counterexample :
    c8taskA ∈ c8tasks ∧ c8taskA ∉ (_topo_sort c8tasks).flatten := by
  decide

/-- Witness for the amended C8 at a concrete cyclic two-task plan, plus a
concrete instance of the all-blocked dump equation. -/
theorem topo_sort_total_and_cycle_dump_witness :
    ((idsOf w8tasks).Nodup ∧ ([(5 : Int)] : List Int).length ≤ 1
     ∧ ([(5 : Int)] : List Int) ≠ [] ∧ (∀ tid ∈ ([(5 : Int)] : List Int), (1 : Nat) ≠ 0))
    ∧ (((_topo_sort w8tasks).flatten.Perm w8tasks)
       ∧ (∀ t ∈ w8tasks, (_topo_sort w8tasks).flatten.count t = 1)
       ∧ topoAuxF w8tasks 1 [(5 : Int)] (fun _ => 1) =
           [([(5 : Int)] : List Int).insertionSort (fun a b => a ≤ b)]) :=
  by
  refine ⟨⟨by decide, by decide, by decide, by intro tid _; exact one_ne_zero⟩, ?_, ?_, ?_⟩
  · exact (topo_sort_total_and_cycle_dump w8tasks (by decide)).1
  · exact (topo_sort_total_and_cycle_dump w8tasks (by decide)).2.1
  · have hnz : ∀ tid ∈ ([(5 : Int)] : List Int), (fun _ : Int => (1 : Nat)) tid ≠ 0 := by
      intro tid _
      exact one_ne_zero
    exact (topo_sort_total_and_cycle_dump w8tasks (by decide)).2.2 [(5 : Int)]
      (fun _ => 1) 1 (by decide) (by decide) hnz

/-! ### Python dict lemmas -/

lemma find?_map_replace {α β : Type} [DecidableEq α] {k : α} {v : β} :
    ∀ m : List (α × β), m.any (fun p => p.1 = k) = true →
      (m.map (fun p => if p.1 = k then (k, v) else p)).find? (fun p => p.1 = k) =
        some (k, v) := by
  intro m
  induction m with
  | nil => intro h; simp at h
  | cons p m ih =>
    intro h
    by_cases hp : p.1 = k
    · simp [hp]
    · have hm : m.any (fun p => p.1 = k) = true := by
        simpa [hp] using h
      simp only [List.map_cons, if_neg hp]
      rw [List.find?_cons_of_neg _ (by simpa using hp)]
      exact ih hm

lemma find?_map_replace_ne {α β : Type} [DecidableEq α] {k k2 : α} {v : β} (hne : k2 ≠ k) :
    ∀ m : List (α × β),
      (m.map (fun p => if p.1 = k then (k, v) else p)).find? (fun p => p.1 = k2) =
        m.find? (fun p => p.1 = k2) := by
  intro m
  induction m with
  | nil => rfl
  | cons p m ih =>
    by_cases hp : p.1 = k
    · simp only [List.map_cons, if_pos hp]
      rw [List.find?_cons_of_neg _
        (by simp only [decide_eq_true_eq]; exact fun h2 => hne h2.symm)]
      rw [List.find?_cons_of_neg _
        (by simp only [decide_eq_true_eq, hp]; exact fun h2 => hne h2.symm)]
      exact ih
    · simp only [List.map_cons, if_neg hp]
      by_cases hp2 : p.1 = k2
      · rw [List.find?_cons_of_pos _ (by simpa using hp2),
          List.find?_cons_of_pos _ (by simpa using hp2)]
      · rw [List.find?_cons_of_neg _ (by simpa using hp2),
          List.find?_cons_of_neg _ (by simpa using hp2)]
        exact ih

lemma pyDictGet_insert_self {α β : Type} [DecidableEq α] (m : List (α × β)) (k : α) (v : β) :
    pyDictGet (pyDictInsert m k v) k = some v := by
  unfold pyDictInsert pyDictGet
  by_cases h : m.any (fun p => p.1 = k) = true
  · rw [if_pos h, find?_map_replace m h]
    rfl
  · rw [if_neg h, List.find?_append]
    have hn : m.find? (fun p => p.1 = k) = none := by
      rw [List.find?_eq_none]
      intro x hx hpx
      exact h (List.any_eq_true.mpr ⟨x, hx, hpx⟩)
    rw [hn]
    simp

lemma pyDictGet_insert_ne {α β : Type} [DecidableEq α] (m : List (α × β)) (k k2 : α)
    (v : β) (hne : k2 ≠ k) : pyDictGet (pyDictInsert m k v) k2 = pyDictGet m k2 := by
  unfold pyDictInsert pyDictGet
  by_cases h : m.any (fun p => p.1 = k) = true
  · rw [if_pos h, find?_map_replace_ne hne m]
  · rw [if_neg h, List.find?_append]
    have hn : List.find? (fun p => p.1 = k2) [(k, v)] = none := by
      rw [List.find?_eq_none]
      intro x hx
      simp only [List.mem_singleton] at hx
      subst hx
      simpa using fun h2 => hne h2.symm
    rw [hn]
    cases m.find? (fun p => p.1 = k2) <;> rfl

lemma pyDictGet_insert_isSome {α β : Type} [DecidableEq α] {m : List (α × β)} {k2 : α}
    (k : α) (v : β) (h : (pyDictGet m k2).isSome) :
    (pyDictGet (pyDictInsert m k v) k2).isSome := by
  by_cases he : k2 = k
  · subst he
    rw [pyDictGet_insert_self]
    rfl
  · rwa [pyDictGet_insert_ne m k k2 v he]

lemma foldl_insert_isSome {α β ι : Type} [DecidableEq α] (key : ι → α)
    (f : List (α × β) → ι → β) :
    ∀ (l : List ι) (m : List (α × β)) (k : α), (pyDictGet m k).isSome →
      (pyDictGet (l.foldl (fun c t => pyDictInsert c (key t) (f c t)) m) k).isSome := by
  intro l
  induction l with
  | nil => intro m k h; exact h
  | cons t l ih =>
    intro m k h
    exact ih _ k (pyDictGet_insert_isSome (key t) (f m t) h)

lemma foldl_insert_mem {α β ι : Type} [DecidableEq α] (key : ι → α)
    (f : List (α × β) → ι → β) :
    ∀ (l : List ι) (m : List (α × β)) (t : ι), t ∈ l →
      (pyDictGet (l.foldl (fun c t => pyDictInsert c (key t) (f c t)) m) (key t)).isSome := by
  intro l
  induction l with
  | nil => intro m t h; cases h
  | cons u l ih =>
    intro m t h
    rcases List.mem_cons.mp h with rfl | h
    · rw [List.foldl_cons]
      refine foldl_insert_isSome key f l (pyDictInsert m (key t) (f m t)) (key t) ?_
      rw [pyDictGet_insert_self]
      rfl
    · exact ih _ t h

/-! ### C5: `ClaudeAgent.run` -/

/-- C5: `ClaudeAgent.run` is total over both subprocess outcomes (the Python
method catches `FileNotFoundError` and returns instead of raising): on a
completed process the result carries the captured stdout as `output`, the
captured stderr as `error` and the exit code; when the binary is missing the
result has empty output, the not-found message and returncode 127; and
`AgentResult.success` holds exactly when the returncode equals 0. -/
theorem claude_agent_run_spec (a : ClaudeAgent)
    (subproc : List Str → Str → Option ProcResult) (task cwd : Str) (dur : Nat) :
    (∀ p, subproc (claudeCmd a task) cwd = some p →
      a.run subproc task cwd dur =
        { agent_name := S "claude", task := task, output := p.stdout,
          error := p.stderr, returncode := p.returncode, duration_s := dur })
    ∧ (subproc (claudeCmd a task) cwd = none →
      a.run subproc task cwd dur =
        { agent_name := S "claude", task := task, output := [],
          error := claudeNotFoundMsg, returncode := 127, duration_s := dur })
    ∧ (∀ r : AgentResult, r.success = true ↔ r.returncode = 0) := by
  refine ⟨?_, ?_, ?_⟩
  · intro p hp
    unfold ClaudeAgent.run
    rw [hp]
  · intro hp
    unfold ClaudeAgent.run
    rw [hp]
  · intro r
    simp [AgentResult.success]

/-- Witness for C5: a concrete successful run and a concrete missing-binary
run. -/
theorem claude_agent_run_spec_witness :
    (w5ok (claudeCmd w5agent (S "do it")) (S ".") = some w5proc
     ∧ w5missing (claudeCmd w5agent (S "do it")) (S ".") = none)
    ∧ (w5agent.run w5ok (S "do it") (S ".") 3 =
        { agent_name := S "claude", task := S "do it", output := S "the output",
          error := S "the stderr", returncode := 0, duration_s := 3 })
    ∧ (w5agent.run w5missing (S "do it") (S ".") 3 =
        { agent_name := S "claude", task := S "do it", output := [],
          error := claudeNotFoundMsg, returncode := 127, duration_s := 3 })
    ∧ ((w5agent.run w5ok (S "do it") (S ".") 3).success = true ↔
        (w5agent.run w5ok (S "do it") (S ".") 3).returncode = 0) :=
  ⟨⟨rfl, rfl⟩,
   (claude_agent_run_spec w5agent w5ok (S "do it") (S ".") 3).1 w5proc rfl,
   (claude_agent_run_spec w5agent w5missing (S "do it") (S ".") 3).2.1 rfl,
   (claude_agent_run_spec w5agent w5ok (S "do it") (S ".") 3).2.2 _⟩

/-! ### C9: `Session.mark_task_done` -/

/-- C9: `mark_task_done` preserves freedom from duplicates of
`completed_task_ids` (also along any sequence of calls), appends the id only
when absent, stores or overwrites the output under the stringified id leaving
other keys unchanged, and changes no other field except `updated_at`. -/
theorem mark_task_done_spec (s : Session) (task_id : Int) (output : Str) (now : Str) :
    ((s.mark_task_done task_id output now).updated_at = now
     ∧ (s.mark_task_done task_id output now).id = s.id
     ∧ (s.mark_task_done task_id output now).type = s.type
     ∧ (s.mark_task_done task_id output now).goal = s.goal
     ∧ (s.mark_task_done task_id output now).cwd = s.cwd
     ∧ (s.mark_task_done task_id output now).created_at = s.created_at
     ∧ (s.mark_task_done task_id output now).status = s.status
     ∧ (s.mark_task_done task_id output now).plan = s.plan
     ∧ (s.mark_task_done task_id output now).research_state_path = s.research_state_path
     ∧ (s.mark_task_done task_id output now).current_round = s.current_round
     ∧ (s.mark_task_done task_id output now).total_rounds = s.total_rounds)
    ∧ (task_id ∈ s.completed_task_ids →
        (s.mark_task_done task_id output now).completed_task_ids = s.completed_task_ids)
    ∧ (task_id ∉ s.completed_task_ids →
        (s.mark_task_done task_id output now).completed_task_ids =
          s.completed_task_ids ++ [task_id])
    ∧ (s.completed_task_ids.Nodup →
        (s.mark_task_done task_id output now).completed_task_ids.Nodup)
    ∧ (pyDictGet (s.mark_task_done task_id output now).task_outputs
        (toString task_id).data = some output)
    ∧ (∀ k, k ≠ (toString task_id).data →
        pyDictGet (s.mark_task_done task_id output now).task_outputs k =
          pyDictGet s.task_outputs k)
    ∧ (∀ calls : List (Int × Str × Str), s.completed_task_ids.Nodup →
        ((calls.foldl (fun acc c => acc.mark_task_done c.1 c.2.1 c.2.2) s).completed_task_ids).Nodup) := by
  have hnodup : ∀ s2 : Session, s2.completed_task_ids.Nodup → ∀ tid out nw,
      (Session.mark_task_done s2 tid out nw).completed_task_ids.Nodup := by
    intro s2 hnd tid out nw
    unfold Session.mark_task_done
    by_cases h : tid ∈ s2.completed_task_ids
    · simpa [h] using hnd
    · simp only [if_neg h]
      rw [List.nodup_append]
      exact ⟨hnd, List.nodup_singleton tid,
        fun x hx hx2 => h ((List.mem_singleton.mp hx2) ▸ hx)⟩
  refine ⟨⟨rfl, rfl, rfl, rfl, rfl, rfl, rfl, rfl, rfl, rfl, rfl⟩, ?_, ?_, ?_, ?_, ?_, ?_⟩
  · intro h
    unfold Session.mark_task_done
    simp [h]
  · intro h
    unfold Session.mark_task_done
    simp [h]
  · intro hnd
    exact hnodup s hnd task_id output now
  · unfold Session.mark_task_done
    exact pyDictGet_insert_self _ _ _
  · intro k hk
    unfold Session.mark_task_done
    exact pyDictGet_insert_ne _ _ _ _ hk
  · intro calls
    induction calls generalizing s with
    | nil => intro h; exact h
    | cons c calls ih =>
      intro h
      exact ih _ (hnodup s h c.1 c.2.1 c.2.2)

/-- Witness for C9 at a concrete session: marking a fresh task appends its id,
keeps the list duplicate-free, and records the output under the key "2". -/
theorem mark_task_done_spec_witness :
    (w9session.completed_task_ids.Nodup ∧ (2 : Int) ∉ w9session.completed_task_ids)
    ∧ ((w9session.mark_task_done 2 (S "out two") (S "t1")).completed_task_ids = [1] ++ [2]
       ∧ (w9session.mark_task_done 2 (S "out two") (S "t1")).completed_task_ids.Nodup
       ∧ pyDictGet (w9session.mark_task_done 2 (S "out two") (S "t1")).task_outputs
           (toString (2 : Int)).data = some (S "out two")
       ∧ (w9session.mark_task_done 2 (S "out two") (S "t1")).updated_at = S "t1") :=
  ⟨⟨by decide, by decide⟩,
   (mark_task_done_spec w9session 2 (S "out two") (S "t1")).2.2.1 (by decide),
   (mark_task_done_spec w9session 2 (S "out two") (S "t1")).2.2.2.1 (by decide),
   (mark_task_done_spec w9session 2 (S "out two") (S "t1")).2.2.2.2.1,
   (mark_task_done_spec w9session 2 (S "out two") (S "t1")).1.1⟩

/-! ### C6: `Session.save` / `Session.load` round trip -/

lemma decodeList_int (l : List Int) : decodeList asInt (l.map Json.int) = some l := by
  induction l with
  | nil => rfl
  | cons a l ih => simp [decodeList, asInt, ih]

lemma decodeList_strmap (m : List (Str × Str)) :
    decodeList (fun p => (asStr p.2).map (fun v => (p.1, v)))
      (m.map (fun p => (p.1, Json.str p.2))) = some m := by
  induction m with
  | nil => rfl
  | cons p m ih =>
    simp only [List.map_cons, decodeList]
    rw [ih]
    rfl

lemma asOptObj_roundtrip (o : Option (List (Str × Json))) :
    asOptObj (match o with | none => Json.null | some p => Json.obj p) = some o := by
  cases o <;> rfl

lemma asOptStr_roundtrip (o : Option Str) :
    asOptStr (match o with | none => Json.null | some p => Json.str p) = some o := by
  cases o <;> rfl

lemma asStr_str (x : Str) : asStr (Json.str x) = some x := rfl

lemma asInt_int (x : Int) : asInt (Json.int x) = some x := rfl

lemma asIntList_arr (l : List Json) : asIntList (Json.arr l) = decodeList asInt l := rfl

lemma asStrMap_obj (kvs : List (Str × Json)) :
    asStrMap (Json.obj kvs) =
      decodeList (fun p => (asStr p.2).map (fun v => (p.1, v))) kvs := rfl

lemma load_toJson (s2 : Session) : Session.load (Session.toJson s2) = some s2 := by
  have g01 : getField (Session.toJson s2) (S "id") = some (Json.str s2.id) := rfl
  have g02 : getField (Session.toJson s2) (S "type") = some (Json.str s2.type) := rfl
  have g03 : getField (Session.toJson s2) (S "goal") = some (Json.str s2.goal) := rfl
  have g04 : getField (Session.toJson s2) (S "cwd") = some (Json.str s2.cwd) := rfl
  have g05 : getField (Session.toJson s2) (S "created_at") = some (Json.str s2.created_at) := rfl
  have g06 : getField (Session.toJson s2) (S "updated_at") = some (Json.str s2.updated_at) := rfl
  have g07 : getField (Session.toJson s2) (S "status") = some (Json.str s2.status) := rfl
  have g08 : getField (Session.toJson s2) (S "plan") =
      some (match s2.plan with | none => Json.null | some p => Json.obj p) := rfl
  have g09 : getField (Session.toJson s2) (S "completed_task_ids") =
      some (Json.arr (s2.completed_task_ids.map Json.int)) := rfl
  have g10 : getField (Session.toJson s2) (S "task_outputs") =
      some (Json.obj (s2.task_outputs.map (fun p => (p.1, Json.str p.2)))) := rfl
  have g11 : getField (Session.toJson s2) (S "research_state_path") =
      some (match s2.research_state_path with
        | none => Json.null | some p => Json.str p) := rfl
  have g12 : getField (Session.toJson s2) (S "current_round") =
      some (Json.int s2.current_round) := rfl
  have g13 : getField (Session.toJson s2) (S "total_rounds") =
      some (Json.int s2.total_rounds) := rfl
  unfold Session.load
  rw [g01, g02, g03, g04, g05, g06, g07, g08, g09, g10, g11, g12, g13]
  simp only [Option.bind_eq_bind, Option.some_bind, asStr_str, asInt_int, asIntList_arr,
    asStrMap_obj, asOptObj_roundtrip, asOptStr_roundtrip, decodeList_int,
    decodeList_strmap, Option.pure_def]

/-- C6: saving a session and loading the written JSON yields, field for
field, exactly the saved session — the one whose `updated_at` was stamped by
`save` before writing. -/
theorem session_save_load_roundtrip (s : Session) (now : Str) :
    Session.load (s.save now).2 = some (s.save now).1
    ∧ (s.save now).1 = { s with updated_at := now } :=
  ⟨load_toJson _, rfl⟩

/-! ### C3: `ParallelPool.run` -/

/-- C3: with `synthesize=False` and `criticize=False`, `ParallelPool.run`
returns `[]` on an empty task list and otherwise exactly one `AgentOutput`
per input task, in input order, with `agent` and `role` copied from the task;
after the join every task has a recorded result under its role (so the
placeholder is a dead fallback there), while a role with no recorded entry
yields the `success=False`, `error="No result"` placeholder. -/
theorem parallel_pool_run_spec (claudeRun codexRun : Str → Str → AgentResult)
    (cwd : Str) :
    (ParallelPool.run claudeRun codexRun cwd [] = [])
    ∧ (∀ tasks : List PoolTask,
        (ParallelPool.run claudeRun codexRun cwd tasks).length = tasks.length)
    ∧ (∀ (tasks : List PoolTask) (i : Nat),
        ((ParallelPool.run claudeRun codexRun cwd tasks)[i]?).map
            (fun o => (o.agent, o.role)) =
          (tasks[i]?).map (fun t => (t.agent, t.role)))
    ∧ (∀ tasks : List PoolTask, ∀ t ∈ tasks,
        (pyDictGet (poolRecorded claudeRun codexRun cwd tasks) t.role).isSome)
    ∧ (∀ (tasks : List PoolTask) (results : Str → Option (PoolTask × AgentResult))
        (i : Nat) (t : PoolTask), tasks[i]? = some t → results t.role = none →
        (poolOutputs tasks results)[i]? = some
          { agent := t.agent, role := t.role, output := [], duration_s := 0,
            success := false, error := S "No result" }) := by
  have hpointwise : ∀ (results : Str → Option (PoolTask × AgentResult)) (t : PoolTask),
      (poolOutputOf results t).agent = t.agent ∧ (poolOutputOf results t).role = t.role := by
    intro results t
    unfold poolOutputOf
    cases results t.role <;> exact ⟨rfl, rfl⟩
  refine ⟨rfl, ?_, ?_, ?_, ?_⟩
  · intro tasks
    by_cases h : tasks = []
    · subst h; rfl
    · show (if tasks = [] then [] else _).length = _
      rw [if_neg h]
      exact List.length_map _ _
  · intro tasks i
    by_cases h : tasks = []
    · subst h; rfl
    · show ((if tasks = [] then [] else poolOutputs tasks _)[i]?).map _ = _
      rw [if_neg h]
      unfold poolOutputs
      rw [List.getElem?_map]
      cases hti : tasks[i]? with
      | none => rfl
      | some t =>
        obtain ⟨ha, hr⟩ := hpointwise
          (fun role => pyDictGet (poolRecorded claudeRun codexRun cwd tasks) role) t
        show some
          ((poolOutputOf
            (fun role => pyDictGet (poolRecorded claudeRun codexRun cwd tasks) role)
            t).agent,
           (poolOutputOf
            (fun role => pyDictGet (poolRecorded claudeRun codexRun cwd tasks) role)
            t).role) = some (t.agent, t.role)
        rw [ha, hr]
  · intro tasks t ht
    unfold poolRecorded
    exact foldl_insert_mem (fun t => t.role)
      (fun _ t => (t, poolWorkerRes claudeRun codexRun cwd t)) tasks [] t ht
  · intro tasks results i t hti hnone
    unfold poolOutputs
    rw [List.getElem?_map, hti]
    show some (poolOutputOf results t) = _
    unfold poolOutputOf
    rw [hnone]

/-- Witness for C3 at a one-task pool: one output, agent and role copied, the
role recorded, and the placeholder on an empty recording map. -/
theorem parallel_pool_run_spec_witness :
    (([w3task] : List PoolTask)[0]? = some w3task
     ∧ (fun _ : Str => (none : Option (PoolTask × AgentResult))) w3task.role = none
     ∧ w3task ∈ [w3task])
    ∧ (ParallelPool.run w3run w3run (S ".") [] = []
       ∧ (ParallelPool.run w3run w3run (S ".") [w3task]).length = [w3task].length
       ∧ ((ParallelPool.run w3run w3run (S ".") [w3task])[0]?).map
           (fun o => (o.agent, o.role)) = (([w3task] : List PoolTask)[0]?).map
           (fun t => (t.agent, t.role))
       ∧ (pyDictGet (poolRecorded w3run w3run (S ".") [w3task]) w3task.role).isSome
       ∧ (poolOutputs [w3task] (fun _ => none))[0]? = some
           { agent := w3task.agent, role := w3task.role, output := [], duration_s := 0,
             success := false, error := S "No result" }) :=
  ⟨⟨rfl, rfl, List.mem_singleton.mpr rfl⟩,
   (parallel_pool_run_spec w3run w3run (S ".")).1,
   (parallel_pool_run_spec w3run w3run (S ".")).2.1 [w3task],
   (parallel_pool_run_spec w3run w3run (S ".")).2.2.1 [w3task] 0,
   (parallel_pool_run_spec w3run w3run (S ".")).2.2.2.1 [w3task] w3task
     (List.mem_singleton.mpr rfl),
   (parallel_pool_run_spec w3run w3run (S ".")).2.2.2.2 [w3task] (fun _ => none) 0
     w3task rfl rfl⟩

/-! ### C10: `_build_context_prefix` -/

lemma pyJoin_mem_infix (sep : Str) :
    ∀ (parts : List Str) (x : Str), x ∈ parts →
      ∃ pre post, pyJoin sep parts = pre ++ x ++ post := by
  intro parts
  induction parts with
  | nil => intro x hx; cases hx
  | cons a l ih =>
    intro x hx
    rcases List.mem_cons.mp hx with rfl | hx
    · cases l with
      | nil => exact ⟨[], [], by simp [pyJoin]⟩
      | cons b l2 => exact ⟨[], sep ++ pyJoin sep (b :: l2), by simp [pyJoin]⟩
    · obtain ⟨pre, post, hjoin⟩ := ih x hx
      cases l with
      | nil => cases hx
      | cons b l2 =>
        refine ⟨a ++ sep ++ pre, post, ?_⟩
        show a ++ sep ++ pyJoin sep (b :: l2) = _
        rw [hjoin]
        simp [List.append_assoc]

lemma depPart_lookup {completed : List (Int × AgentResult)} {d : Int} {r : AgentResult}
    (h : pyDictGet completed d = some r) :
    depPart completed d =
      (if pyStrip r.output = [] then none
       else some (S "=== Output from Task " ++ (toString d).data ++ S " (" ++
         pyUpper r.agent_name ++ S ") ===\n" ++
         (if 2000 < (pyStrip r.output).length then
            (pyStrip r.output).take 2000 ++ S "\n... [truncated]"
          else pyStrip r.output))) := by
  unfold depPart
  rw [h]

lemma depPart_none_iff {completed : List (Int × AgentResult)} {d : Int} :
    depPart completed d = none ↔
      ∀ r, pyDictGet completed d = some r → pyStrip r.output = [] := by
  cases h : pyDictGet completed d with
  | none =>
    constructor
    · intro _ r hr
      cases hr
    · intro _
      unfold depPart
      rw [h]
  | some r =>
    rw [depPart_lookup h]
    by_cases hs : pyStrip r.output = []
    · rw [if_pos hs]
      constructor
      · intro _ r2 hr2
        obtain rfl := Option.some_inj.mp hr2
        exact hs
      · intro _
        rfl
    · rw [if_neg hs]
      constructor
      · intro hc
        cases hc
      · intro hall
        exact absurd (hall r rfl) hs

/-- C10: the context prefix is empty exactly when the additional context is
blank and no listed dependency has a completed result with non-blank output;
and for every listed dependency with a non-blank output, the prefix contains
at most the first 2000 characters of that (stripped) output, followed by the
truncation marker exactly when the output is longer than 2000 characters. -/
theorem build_context_prefix_spec (completed : List (Int × AgentResult))
    (depends_on : List Int) (additional_context : Str) :
    ( _build_context_prefix completed depends_on additional_context = [] ↔
      (pyStrip additional_context = [] ∧
       ∀ d ∈ depends_on, ∀ r, pyDictGet completed d = some r → pyStrip r.output = []))
    ∧ (∀ d ∈ depends_on, ∀ r, pyDictGet completed d = some r → pyStrip r.output ≠ [] →
        ∃ pre post, _build_context_prefix completed depends_on additional_context =
          pre ++ ((pyStrip r.output).take 2000 ++
            (if 2000 < (pyStrip r.output).length then S "\n... [truncated]" else [])) ++
          post) := by
  set gl : List Str :=
    (if additional_context ≠ [] ∧ pyStrip additional_context ≠ [] then
      [S "=== Global Instructions ===\n" ++ pyStrip additional_context] else []) with hgl
  set parts : List Str := gl ++ depends_on.filterMap (depPart completed) with hparts
  have hunfold : _build_context_prefix completed depends_on additional_context =
      (if parts = [] then [] else
        pyJoin (S "\n\n") parts ++ S "\n\n--- Your task ---\n") := rfl
  constructor
  · rw [hunfold]
    constructor
    · intro hres
      have hpnil : parts = [] := by
        by_contra hne
        rw [if_neg hne] at hres
        have := List.append_eq_nil.mp hres
        exact absurd this.2 (by simp [S])
      rw [hparts] at hpnil
      obtain ⟨hgl0, hfm⟩ := List.append_eq_nil.mp hpnil
      constructor
      · by_contra hstrip
        have hcond : additional_context ≠ [] ∧ pyStrip additional_context ≠ [] := by
          refine ⟨?_, hstrip⟩
          intro hc
          exact hstrip (by rw [hc]; rfl)
        rw [hgl, if_pos hcond] at hgl0
        cases hgl0
      · intro d hd r hr
        have hnone := List.filterMap_eq_nil_iff.mp hfm d hd
        exact depPart_none_iff.mp hnone r hr
    · intro ⟨hstrip, hdeps⟩
      have hglnil : gl = [] := by
        rw [hgl, if_neg]
        intro hc
        exact hc.2 hstrip
      have hfm : depends_on.filterMap (depPart completed) = [] := by
        rw [List.filterMap_eq_nil_iff]
        intro d hd
        exact depPart_none_iff.mpr (hdeps d hd)
      have : parts = [] := by rw [hparts, hglnil, hfm]; rfl
      rw [if_pos this]
  · intro d hd r hr hne
    have hsome := depPart_lookup hr
    rw [if_neg hne] at hsome
    set payload : Str := (pyStrip r.output).take 2000 ++
      (if 2000 < (pyStrip r.output).length then S "\n... [truncated]" else []) with hpay
    have hpayload : (if 2000 < (pyStrip r.output).length then
        (pyStrip r.output).take 2000 ++ S "\n... [truncated]"
      else pyStrip r.output) = payload := by
      rw [hpay]
      by_cases hlen : 2000 < (pyStrip r.output).length
      · rw [if_pos hlen, if_pos hlen]
      · rw [if_neg hlen, if_neg hlen,
          List.take_of_length_le (le_of_not_lt hlen), List.append_nil]
    rw [hpayload] at hsome
    set hdr : Str := S "=== Output from Task " ++ (toString d).data ++ S " (" ++
      pyUpper r.agent_name ++ S ") ===\n" with hhdr
    have hmem : (hdr ++ payload) ∈ parts := by
      rw [hparts]
      refine List.mem_append_right _ ?_
      exact List.mem_filterMap.mpr ⟨d, hd, hsome⟩
    have hpne : parts ≠ [] := List.ne_nil_of_mem hmem
    obtain ⟨pre2, post2, hjoin⟩ := pyJoin_mem_infix (S "\n\n") parts (hdr ++ payload) hmem
    refine ⟨pre2 ++ hdr, post2 ++ S "\n\n--- Your task ---\n", ?_⟩
    rw [hunfold, if_neg hpne, hjoin]
    simp [List.append_assoc]

/-- Witness for C10: dependency 7 has a non-blank output, so its first 2000
characters appear in the prefix; and with no dependencies and blank context
the prefix is empty. -/
theorem build_context_prefix_spec_witness :
    ((7 : Int) ∈ [(7 : Int)] ∧ pyDictGet w10completed 7 = some w10res
     ∧ pyStrip w10res.output ≠ []
     ∧ (pyStrip ([] : Str) = [] ∧ ∀ d ∈ ([] : List Int), ∀ r : AgentResult,
          pyDictGet ([] : List (Int × AgentResult)) d = some r → pyStrip r.output = []))
    ∧ ((∃ pre post, _build_context_prefix w10completed [7] [] =
        pre ++ ((pyStrip w10res.output).take 2000 ++
          (if 2000 < (pyStrip w10res.output).length then S "\n... [truncated]" else [])) ++
        post)
       ∧ _build_context_prefix [] [] [] = []) := by
  refine ⟨⟨by decide, rfl, by decide, rfl, ?_⟩, ?_, ?_⟩
  · intro d hd
    cases hd
  · exact (build_context_prefix_spec w10completed [7] []).2 7 (by decide) w10res rfl
      (by decide)
  · exact (build_context_prefix_spec [] [] []).1.mpr ⟨rfl, by intro d hd; cases hd⟩

lemma foldl_append_flatten {ι σ : Type} (g : ι → List σ) :
    ∀ (l : List ι) (a : List σ),
      l.foldl (fun acc t => acc ++ g t) a = a ++ (l.map g).flatten := by
  intro l
  induction l with
  | nil => intro a; simp
  | cons t l ih =>
    intro a
    rw [List.foldl_cons, ih, List.map_cons, List.flatten_cons, List.append_assoc]

lemma sep_join_flatten (sep : Str) :
    ∀ l : List Str, l ≠ [] → sep ++ pyJoin sep l = (l.map (fun x => sep ++ x)).flatten := by
  intro l
  induction l with
  | nil => intro h; exact absurd rfl h
  | cons a l ih =>
    intro _
    cases l with
    | nil => simp [pyJoin]
    | cons b l2 =>
      show sep ++ (a ++ sep ++ pyJoin sep (b :: l2)) = _
      rw [List.map_cons, List.flatten_cons, ← ih (List.cons_ne_nil b l2)]
      simp [List.append_assoc]

lemma pyJoin_append_bind (sep : Str) :
    ∀ (l1 l2 : List Str), l1 ≠ [] →
      pyJoin sep (l1 ++ l2) =
        pyJoin sep l1 ++ (l2.map (fun x => sep ++ x)).flatten := by
  intro l1
  induction l1 with
  | nil => intro l2 h; exact absurd rfl h
  | cons a l1 ih =>
    intro l2 _
    cases hl1 : l1 with
    | nil =>
      cases l2 with
      | nil => simp [pyJoin]
      | cons c l3 =>
        show pyJoin sep (a :: c :: l3) = pyJoin sep [a] ++ _
        rw [show pyJoin sep (a :: c :: l3) = a ++ sep ++ pyJoin sep (c :: l3) from rfl]
        rw [show pyJoin sep [a] = a from rfl]
        rw [← sep_join_flatten sep (c :: l3) (List.cons_ne_nil c l3)]
        simp [List.append_assoc]
    | cons b l1b =>
      rw [hl1] at ih
      show pyJoin sep (a :: (b :: l1b) ++ l2) = pyJoin sep (a :: b :: l1b) ++ _
      rw [show pyJoin sep (a :: (b :: l1b) ++ l2) =
        a ++ sep ++ pyJoin sep ((b :: l1b) ++ l2) from rfl]
      rw [ih l2 (List.cons_ne_nil b l1b)]
      rw [show pyJoin sep (a :: b :: l1b) = a ++ sep ++ pyJoin sep (b :: l1b) from rfl]
      simp [List.append_assoc]

lemma flatten_map_flatten {σ τ : Type} (f : σ → List τ) :
    ∀ L : List (List σ),
      ((L.flatten).map f).flatten = (L.map (fun w => (w.map f).flatten)).flatten := by
  intro L
  induction L with
  | nil => rfl
  | cons w L ih =>
    rw [List.flatten_cons, List.map_append, List.flatten_append, ih,
      List.map_cons, List.flatten_cons]

lemma flatten_map_filter {σ τ : Type} (p : σ → Bool) (g : σ → List τ) :
    ∀ l : List σ, (∀ t ∈ l, p t = false → g t = []) →
      ((l.filter p).map g).flatten = (l.map g).flatten := by
  intro l
  induction l with
  | nil => intro _; rfl
  | cons t l ih =>
    intro h
    cases hp : p t with
    | true =>
      rw [List.filter_cons_of_pos (by simp [hp]), List.map_cons, List.map_cons,
        List.flatten_cons, List.flatten_cons,
        ih (fun u hu hpu => h u (List.mem_cons_of_mem t hu) hpu)]
    | false =>
      rw [List.filter_cons_of_neg (by simp [hp]), List.map_cons, List.flatten_cons,
        h t (List.mem_cons_self t l) hp,
        ih (fun u hu hpu => h u (List.mem_cons_of_mem t hu) hpu)]
      rfl

lemma secLines_glue (t : Task) (res : AgentResult) :
    ((secLines t res).map (fun x => S "\n" ++ x)).flatten = S "\n" ++ specSection t res := by
  have e3 : S "\n\n" = S "\n" ++ S "\n" := by decide
  simp [secLines, specSection, e3, List.append_assoc]

/-- C7: the results file is the fixed header followed by exactly one section
per plan task that has a completed entry, in plan order; tasks without an
entry contribute nothing. -/
theorem save_results_sections (plan : Plan) (completed : List (Int × AgentResult))
    (dateStr : Str) :
    _save_results plan completed dateStr =
      S "# agent-collab Results\n\n**Goal:** " ++ plan.goal ++ S "\n\n**Date:** " ++
        dateStr ++ S "\n\n" ++
      ((plan.tasks.filter (fun t => (pyDictGet completed t.id).isSome)).map
        (fun t => match pyDictGet completed t.id with
          | some res => S "\n" ++ specSection t res
          | none => [])).flatten := by
  have e1 : S "# agent-collab Results\n\n**Goal:** " =
      S "# agent-collab Results\n" ++ S "\n" ++ S "**Goal:** " := by decide
  have e2 : S "\n\n**Date:** " = S "\n" ++ S "\n" ++ S "**Date:** " := by decide
  have e3 : S "\n\n" = S "\n" ++ S "\n" := by decide
  set g0 : Task → List Str := fun t =>
    match pyDictGet completed t.id with
    | none => []
    | some res => secLines t res with hg0
  have hsec : ∀ t : Task,
      ((g0 t).map (fun x => S "\n" ++ x)).flatten =
        (match pyDictGet completed t.id with
          | some res => S "\n" ++ specSection t res
          | none => []) := by
    intro t
    rw [hg0]
    cases h : pyDictGet completed t.id with
    | none => simp [h]
    | some res =>
      simp only [h]
      exact secLines_glue t res
  have hbody : _save_results plan completed dateStr =
      pyJoin (S "\n")
        ([S "# agent-collab Results\n", S "**Goal:** " ++ plan.goal ++ S "\n",
          S "**Date:** " ++ dateStr ++ S "\n", []] ++
          plan.tasks.foldl (fun acc t => acc ++ g0 t) []) := by
    rw [hg0]
    rfl
  rw [hbody, foldl_append_flatten g0 plan.tasks []]
  show pyJoin (S "\n")
      ([S "# agent-collab Results\n", S "**Goal:** " ++ plan.goal ++ S "\n",
        S "**Date:** " ++ dateStr ++ S "\n", []] ++ (plan.tasks.map g0).flatten) = _
  rw [pyJoin_append_bind (S "\n") _ _ (by simp), flatten_map_flatten]
  have hmapped : (plan.tasks.map g0).map
      (fun w => (w.map (fun x => S "\n" ++ x)).flatten) =
      plan.tasks.map (fun t =>
        match pyDictGet completed t.id with
          | some res => S "\n" ++ specSection t res
          | none => []) := by
    rw [List.map_map]
    exact List.map_congr_left (fun t _ => hsec t)
  rw [hmapped]
  rw [flatten_map_filter (fun t => (pyDictGet completed t.id).isSome)
    (fun t => match pyDictGet completed t.id with
      | some res => S "\n" ++ specSection t res
      | none => []) plan.tasks (by
        intro t _ hp
        cases h : pyDictGet completed t.id with
        | none => simp [h]
        | some res => simp [h] at hp)]
  rw [e1, e2, e3]
  show S "# agent-collab Results\n" ++ S "\n" ++
      ((S "**Goal:** " ++ plan.goal ++ S "\n") ++ S "\n" ++
        ((S "**Date:** " ++ dateStr ++ S "\n") ++ S "\n" ++ [])) ++ _ = _
  simp [List.append_assoc]

/-! ### C2: `execute_plan` -/

lemma execWave_mono (claudeRun codexRun : Str → Str → AgentResult) (cwd addCtx : Str)
    (skip : List Int) (completed : List (Int × AgentResult)) (wave : List Task)
    {k : Int} (h : (pyDictGet completed k).isSome) :
    (pyDictGet (execWave claudeRun codexRun cwd addCtx skip completed wave) k).isSome := by
  unfold execWave
  apply foldl_insert_isSome (fun t => t.id)
    (fun c t => execTask claudeRun codexRun cwd addCtx c t)
  apply foldl_insert_isSome (fun t => t.id)
    (fun _ t => execTask claudeRun codexRun cwd addCtx completed t)
  exact h

lemma execWave_covers (claudeRun codexRun : Str → Str → AgentResult) (cwd addCtx : Str)
    (skip : List Int) (completed : List (Int × AgentResult)) (wave : List Task)
    {t : Task} (ht : t ∈ wave) (hskip : ¬ t.id ∈ skip) :
    (pyDictGet (execWave claudeRun codexRun cwd addCtx skip completed wave) t.id).isSome := by
  unfold execWave
  have htodo : t ∈ wave.filter (fun t => ¬ t.id ∈ skip) :=
    List.mem_filter.mpr ⟨ht, by simpa using hskip⟩
  set todo := wave.filter (fun t => ¬ t.id ∈ skip) with htododef
  by_cases hp : t.parallel = true ∧ 1 < todo.length
  · have hpar : t ∈ todo.filter (fun t => t.parallel ∧ 1 < todo.length) :=
      List.mem_filter.mpr ⟨htodo, by simpa using hp⟩
    apply foldl_insert_isSome (fun t => t.id)
      (fun c t => execTask claudeRun codexRun cwd addCtx c t)
    exact foldl_insert_mem (fun t => t.id)
      (fun _ t => execTask claudeRun codexRun cwd addCtx completed t) _ _ t hpar
  · have hser : t ∈ todo.filter (fun t => ¬ t.parallel ∨ todo.length = 1) := by
      refine List.mem_filter.mpr ⟨htodo, ?_⟩
      simp only [Bool.or_eq_true, decide_eq_true_eq, Bool.not_eq_true']
      by_cases hpar : t.parallel = true
      · right
        have hlen1 : ¬ 1 < todo.length := fun hlen => hp ⟨hpar, hlen⟩
        have hpos : 0 < todo.length := List.length_pos.mpr (List.ne_nil_of_mem htodo)
        omega
      · left
        simpa using hpar
    exact foldl_insert_mem (fun t => t.id)
      (fun c t => execTask claudeRun codexRun cwd addCtx c t) _ _ t hser

lemma take_fold_covers (claudeRun codexRun : Str → Str → AgentResult) (plan : Plan)
    (cwd : Str) (session : Option Session) (skip : List Int) :
    ∀ (j i : Nat) (wi : List Task) (t : Task), i < j →
      (_topo_sort plan.tasks)[i]? = some wi → t ∈ wi → ¬ t.id ∈ skip →
      (pyDictGet (((_topo_sort plan.tasks).take j).foldl
        (execWave claudeRun codexRun cwd plan.additional_context skip)
        (initCompleted plan.tasks session skip)) t.id).isSome := by
  intro j
  induction j with
  | zero => intro i wi t hlt; omega
  | succ j ih =>
    intro i wi t hlt hwi hmem hskip
    rw [List.take_succ, List.foldl_append]
    rcases Nat.lt_succ_iff_lt_or_eq.mp hlt with hlt2 | rfl
    · cases hj : (_topo_sort plan.tasks)[j]? with
      | none =>
        exact ih i wi t hlt2 hwi hmem hskip
      | some wj =>
        exact execWave_mono claudeRun codexRun cwd plan.additional_context skip _ wj
          (ih i wi t hlt2 hwi hmem hskip)
    · rw [hwi]
      exact execWave_covers claudeRun codexRun cwd plan.additional_context skip _ wi
        hmem hskip

/-- C2: `execute_plan` folds `execWave` over the waves of `_topo_sort` in
order, so a task recorded in wave `i` is present in the completed map before
any later wave `j` builds its contexts from that map; and the returned dict
holds a result for every task id of the plan that is not skipped. -/
theorem execute_plan_spec (claudeRun codexRun : Str → Str → AgentResult) (plan : Plan)
    (cwd : Str) (session : Option Session) (skip : List Int) :
    (∀ (j i : Nat) (wi : List Task) (t : Task), i < j →
      (_topo_sort plan.tasks)[i]? = some wi → t ∈ wi → ¬ t.id ∈ skip →
      (pyDictGet (((_topo_sort plan.tasks).take j).foldl
        (execWave claudeRun codexRun cwd plan.additional_context skip)
        (initCompleted plan.tasks session skip)) t.id).isSome)
    ∧ (∀ t ∈ plan.tasks, ¬ t.id ∈ skip →
      (pyDictGet (execute_plan claudeRun codexRun plan cwd session skip) t.id).isSome) := by
  refine ⟨take_fold_covers claudeRun codexRun plan cwd session skip, ?_⟩
  intro t ht hskip
  obtain ⟨i, wi, t2, hwi, ht2, hid2⟩ : ∃ (i : Nat) (wi : List Task) (t2 : Task),
      (_topo_sort plan.tasks)[i]? = some wi ∧ t2 ∈ wi ∧ t2.id = t.id := by
    have hdn : ((idsOf plan.tasks).dedup).Nodup := List.nodup_dedup _
    obtain ⟨hperm, _⟩ := topoAux_perm plan.tasks ((idsOf plan.tasks).dedup).length
      ((idsOf plan.tasks).dedup) (initDeg plan.tasks) (le_refl _) hdn
    have hmemid : t.id ∈ (idsOf plan.tasks).dedup :=
      List.mem_dedup.mpr (List.mem_map_of_mem (fun u => u.id) ht)
    have hmemfl := hperm.mem_iff.mpr hmemid
    obtain ⟨w0, hw0, hidw0⟩ := List.mem_flatten.mp hmemfl
    obtain ⟨i, hlen, hget⟩ := List.mem_iff_getElem.mp hw0
    obtain ⟨t2, hmap, hid2, _⟩ := idMap_some (by
      simpa using List.mem_dedup.mp (hperm.mem_iff.mp
        (List.mem_flatten.mpr ⟨w0, hw0, hidw0⟩)))
    refine ⟨i, w0.filterMap (idMap plan.tasks), t2, ?_, ?_, hid2⟩
    · show (_topo_sort plan.tasks)[i]? = _
      have : _topo_sort plan.tasks =
          (topoAuxF plan.tasks ((idsOf plan.tasks).dedup).length
            ((idsOf plan.tasks).dedup) (initDeg plan.tasks)).map
            (fun w => w.filterMap (idMap plan.tasks)) := rfl
      rw [this, List.getElem?_map]
      rw [List.getElem?_eq_some.mpr ⟨hlen, hget⟩]
      rfl
    · exact List.mem_filterMap.mpr ⟨t.id, hidw0, hmap⟩
  have hlen : i < (_topo_sort plan.tasks).length := List.getElem?_eq_some.mp hwi |>.1
  have := take_fold_covers claudeRun codexRun plan cwd session skip
    (_topo_sort plan.tasks).length i wi t2 hlen hwi ht2 (hid2 ▸ hskip)
  rw [List.take_length] at this
  rw [← hid2]
  exact this

/-- Witness for C2: on a concrete two-task plan with nothing skipped, both
task ids are present in the returned map. -/
theorem execute_plan_spec_witness :
    (w2t1 ∈ w2plan.tasks ∧ w2t2 ∈ w2plan.tasks
     ∧ ¬ w2t1.id ∈ ([] : List Int) ∧ ¬ w2t2.id ∈ ([] : List Int))
    ∧ ((pyDictGet (execute_plan w2run w2run w2plan (S ".") none []) w2t1.id).isSome
       ∧ (pyDictGet (execute_plan w2run w2run w2plan (S ".") none []) w2t2.id).isSome) :=
  ⟨⟨by decide, by decide, by decide, by decide⟩,
   (execute_plan_spec w2run w2run w2plan (S ".") none []).2 w2t1 (by decide) (by decide),
   (execute_plan_spec w2run w2run w2plan (S ".") none []).2 w2t2 (by decide) (by decide)⟩

lemma balancedAt_iff_dep {t : Str} {k : Nat} :
    balancedAt t k ↔ (k < t.length ∧ dep (t.take (k+1)) = 0) := by
  unfold balancedAt dep
  constructor
  · intro h
    exact ⟨h.1, by omega⟩
  · intro h
    exact ⟨h.1, by omega⟩

lemma dep_nil : dep [] = 0 := rfl

lemma dep_cons (c : Char) (p : Str) : dep (c :: p) = charStep c + dep p := by
  unfold dep charStep
  rw [List.count_cons, List.count_cons]
  by_cases h1 : c = lbrace
  · have h2 : ¬ c = rbrace := by rw [h1]; decide
    simp only [h1, if_pos rfl, beq_self_eq_true, if_true]
    rw [if_neg (by rw [← h1]; simpa using h2)]
    push_cast
    ring
  · by_cases h2 : c = rbrace
    · rw [if_neg h1, if_pos h2, if_neg (by simpa using h1), if_pos (by simpa using h2)]
      push_cast
      ring
    · rw [if_neg h1, if_neg h2, if_neg (by simpa using h1), if_neg (by simpa using h2)]
      push_cast
      ring

lemma dep_single (c : Char) : dep [c] = charStep c := by
  rw [show ([c] : Str) = c :: [] from rfl, dep_cons, dep_nil, add_zero]

lemma dep_append (a b : Str) : dep (a ++ b) = dep a + dep b := by
  unfold dep
  rw [List.count_append, List.count_append]
  push_cast
  ring

lemma charStep_bound (c : Char) : -1 ≤ charStep c ∧ charStep c ≤ 1 := by
  unfold charStep
  by_cases h1 : c = lbrace
  · rw [if_pos h1]
    exact ⟨by omega, by omega⟩
  · rw [if_neg h1]
    by_cases h2 : c = rbrace
    · rw [if_pos h2]
      exact ⟨by omega, by omega⟩
    · rw [if_neg h2]
      exact ⟨by omega, by omega⟩

lemma charStep_eq_neg_one {c : Char} (h : charStep c = -1) : c = rbrace := by
  unfold charStep at h
  by_cases h1 : c = lbrace
  · rw [if_pos h1] at h
    cases h
  · by_cases h2 : c = rbrace
    · exact h2
    · rw [if_neg h1, if_neg h2] at h
      cases h

lemma braceLoop_cons (c : Char) (rest : Str) (d : Int) (acc : Str) :
    braceLoop (c :: rest) d acc =
      (if c = rbrace ∧ d + charStep c = 0 then (c :: acc).reverse
       else braceLoop rest (d + charStep c) (c :: acc)) := by
  have hstep : (if c = lbrace then d + 1 else if c = rbrace then d - 1 else d) =
      d + charStep c := by
    unfold charStep
    by_cases h1 : c = lbrace
    · rw [if_pos h1, if_pos h1]
    · by_cases h2 : c = rbrace
      · rw [if_neg h1, if_pos h2, if_neg h1, if_pos h2]
        ring
      · rw [if_neg h1, if_neg h2, if_neg h1, if_neg h2, add_zero]
  show (if c = rbrace ∧ (if c = lbrace then d + 1 else if c = rbrace then d - 1 else d) = 0
    then (c :: acc).reverse
    else braceLoop rest (if c = lbrace then d + 1 else if c = rbrace then d - 1 else d)
      (c :: acc)) = _
  rw [hstep]

lemma braceLoop_nostop : ∀ (t : Str) (d : Int) (acc : Str),
    (∀ k, ¬(t[k]? = some rbrace ∧ d + dep (t.take (k+1)) = 0)) →
    braceLoop t d acc = [] := by
  intro t
  induction t with
  | nil => intro d acc _; rfl
  | cons c rest ih =>
    intro d acc h
    rw [braceLoop_cons]
    have hc0 : ¬(c = rbrace ∧ d + charStep c = 0) := by
      intro hcond
      apply h 0
      refine ⟨by simp [hcond.1], ?_⟩
      rw [show (c :: rest).take 1 = [c] from rfl, dep_single]
      exact hcond.2
    rw [if_neg hc0]
    apply ih
    intro k hk
    apply h (k+1)
    refine ⟨by simpa using hk.1, ?_⟩
    rw [show (c :: rest).take (k+2) = c :: rest.take (k+1) from rfl, dep_cons]
    rw [show d + (charStep c + dep (rest.take (k+1))) =
      d + charStep c + dep (rest.take (k+1)) from by ring]
    exact hk.2

lemma braceLoop_stop : ∀ (t : Str) (d : Int) (acc : Str) (k : Nat),
    t[k]? = some rbrace → d + dep (t.take (k+1)) = 0 →
    (∀ j, j < k → ¬(t[j]? = some rbrace ∧ d + dep (t.take (j+1)) = 0)) →
    braceLoop t d acc = acc.reverse ++ t.take (k+1) := by
  intro t
  induction t with
  | nil =>
    intro d acc k hk
    simp at hk
  | cons c rest ih =>
    intro d acc k hk hbal hmin
    rw [braceLoop_cons]
    cases k with
    | zero =>
      have hc : c = rbrace := by simpa using hk
      have hd : d + charStep c = 0 := by
        rw [show (c :: rest).take 1 = [c] from rfl, dep_single] at hbal
        exact hbal
      rw [if_pos ⟨hc, hd⟩, List.reverse_cons]
      rfl
    | succ k2 =>
      have hc0 : ¬(c = rbrace ∧ d + charStep c = 0) := by
        intro hcond
        apply hmin 0 (Nat.succ_pos k2)
        refine ⟨by simp [hcond.1], ?_⟩
        rw [show (c :: rest).take 1 = [c] from rfl, dep_single]
        exact hcond.2
      rw [if_neg hc0]
      have hk2 : rest[k2]? = some rbrace := by simpa using hk
      have hbal2 : d + charStep c + dep (rest.take (k2+1)) = 0 := by
        rw [show (c :: rest).take (k2+2) = c :: rest.take (k2+1) from rfl, dep_cons] at hbal
        rw [add_assoc]
        exact hbal
      have hmin2 : ∀ j, j < k2 → ¬(rest[j]? = some rbrace ∧
          d + charStep c + dep (rest.take (j+1)) = 0) := by
        intro j hj hcond
        apply hmin (j+1) (Nat.succ_lt_succ hj)
        refine ⟨by simpa using hcond.1, ?_⟩
        rw [show (c :: rest).take (j+2) = c :: rest.take (j+1) from rfl, dep_cons,
          ← add_assoc]
        exact hcond.2
      rw [ih (d + charStep c) (c :: acc) k2 hk2 hbal2 hmin2, List.reverse_cons,
        List.append_assoc]
      rfl

lemma dep_take_succ (t : Str) (j : Nat) (hj : j < t.length) :
    dep (t.take (j+1)) = dep (t.take j) + charStep (t.get ⟨j, hj⟩) := by
  rw [List.take_succ, List.getElem?_eq_getElem hj]
  rw [dep_append]
  rw [show (some t[j]).toList = [t[j]] from rfl, dep_single]
  rfl

lemma take_one_of_head {t : Str} {c : Char} (h : t[0]? = some c) : t.take 1 = [c] := by
  cases t with
  | nil => cases h
  | cons a rest =>
    have : a = c := by simpa using h
    rw [this]
    rfl

lemma dep_ge_one_until (t : Str) (h0 : t[0]? = some lbrace) (k : Nat)
    (hmin : ∀ j, j < k → dep (t.take (j+1)) ≠ 0) :
    ∀ j, j < k → j < t.length → 1 ≤ dep (t.take (j+1)) := by
  intro j
  induction j with
  | zero =>
    intro _ _
    rw [take_one_of_head h0, dep_single]
    unfold charStep
    rw [if_pos rfl]
  | succ j2 ih =>
    intro hj hlen
    have hlen2 : j2 < t.length := Nat.lt_of_succ_lt hlen
    have h1 := ih (Nat.lt_of_succ_lt hj) hlen2
    have hstep := dep_take_succ t (j2+1) hlen
    have hb := charStep_bound (t.get ⟨j2+1, hlen⟩)
    have hne := hmin (j2+1) hj
    omega

lemma stop_char (t : Str) (h0 : t[0]? = some lbrace) (k : Nat) (hk : k < t.length)
    (hbal : dep (t.take (k+1)) = 0) (hmin : ∀ j, j < k → dep (t.take (j+1)) ≠ 0) :
    t[k]? = some rbrace := by
  have hk1 : 1 ≤ k := by
    rcases Nat.eq_zero_or_pos k with rfl | h
    · rw [take_one_of_head h0, dep_single] at hbal
      unfold charStep at hbal
      rw [if_pos rfl] at hbal
      cases hbal
    · exact h
  have hDk : 1 ≤ dep (t.take k) := by
    have := dep_ge_one_until t h0 k hmin (k-1) (by omega) (by omega)
    rwa [show k - 1 + 1 = k from by omega] at this
  have hstep := dep_take_succ t k hk
  have hb := charStep_bound (t.get ⟨k, hk⟩)
  have hcs : charStep (t.get ⟨k, hk⟩) = -1 := by omega
  rw [List.getElem?_eq_getElem hk]
  exact congrArg some (charStep_eq_neg_one hcs)

lemma dropWhile_lbrace_mem : ∀ l : Str, lbrace ∈ l →
    ∃ rest, l.dropWhile (fun c => ¬ c = lbrace) = lbrace :: rest := by
  intro l
  induction l with
  | nil => intro h; cases h
  | cons c l2 ih =>
    intro h
    by_cases hc : c = lbrace
    · refine ⟨l2, ?_⟩
      rw [List.dropWhile_cons]
      rw [if_neg (by simp [hc])]
      rw [hc]
    · have hmem : lbrace ∈ l2 := by
        rcases List.mem_cons.mp h with heq | hm
        · exact absurd heq.symm hc
        · exact hm
      obtain ⟨rest, hrest⟩ := ih hmem
      refine ⟨rest, ?_⟩
      rw [List.dropWhile_cons, if_pos (by simpa using hc)]
      exact hrest

lemma fence_chars : S "```" = [btChar, btChar, btChar] := by decide

lemma startsFence_decomp : ∀ {u : Str}, startsFence u = true →
    ∃ rest3, u = S "```" ++ rest3 := by
  intro u h
  match u with
  | [] => cases h
  | [c1] => cases h
  | [c1, c2] => cases h
  | c1 :: c2 :: c3 :: rest =>
    have h2 : c1 = btChar ∧ c2 = btChar ∧ c3 = btChar := by
      simpa [startsFence] using h
    refine ⟨rest, ?_⟩
    rw [fence_chars, h2.1, h2.2.1, h2.2.2]
    rfl

lemma startsFence_fence (X : Str) : startsFence (S "```" ++ X) = true := by
  rw [fence_chars]
  show decide (btChar = btChar ∧ btChar = btChar ∧ btChar = btChar) = true
  exact decide_eq_true ⟨rfl, rfl, rfl⟩

lemma dropWhile_space_cons (ws : Str) (hws : ∀ c ∈ ws, isPySpace c = true)
    (c : Char) (hc : isPySpace c = false) (v : Str) :
    (ws ++ c :: v).dropWhile isPySpace = c :: v := by
  induction ws with
  | nil =>
    rw [List.nil_append]
    simp [List.dropWhile_cons, hc]
  | cons a ws2 ih =>
    have ha := hws a (List.mem_cons_self a ws2)
    rw [List.cons_append]
    simp only [List.dropWhile_cons, ha, if_true]
    exact ih (fun x hx => hws x (List.mem_cons_of_mem a hx))

lemma findClose_shape : ∀ (t acc cap : Str), findClose t acc = some cap →
    ∃ mid rest2, t = mid ++ rbrace :: rest2 ∧
      cap = lbrace :: (acc.reverse ++ mid) ++ [rbrace] ∧
      startsFence (rest2.dropWhile isPySpace) = true := by
  intro t
  induction t with
  | nil => intro acc cap h; cases h
  | cons c rest ih =>
    intro acc cap h
    rw [show findClose (c :: rest) acc =
      (if c = rbrace ∧ startsFence (rest.dropWhile isPySpace) = true then
        some (lbrace :: acc.reverse ++ [rbrace])
      else findClose rest (c :: acc)) from rfl] at h
    by_cases hc : c = rbrace ∧ startsFence (rest.dropWhile isPySpace) = true
    · rw [if_pos hc] at h
      injection h with h
      refine ⟨[], rest, ?_, ?_, hc.2⟩
      · rw [List.nil_append, hc.1]
      · rw [← h]
        simp
    · rw [if_neg hc] at h
      obtain ⟨mid, rest2, ht, hcap, hsf⟩ := ih (c :: acc) cap h
      refine ⟨c :: mid, rest2, ?_, ?_, hsf⟩
      · rw [ht]
        rfl
      · rw [hcap, List.reverse_cons]
        simp [List.append_assoc]

lemma matchBody_shape (rest cap : Str) (h : matchBody rest = some cap) :
    ∃ ws1 mid ws2 post,
      rest = ws1 ++ (lbrace :: mid ++ [rbrace]) ++ ws2 ++ S "```" ++ post ∧
      (∀ c ∈ ws1, isPySpace c = true) ∧
      (∀ c ∈ ws2, isPySpace c = true) ∧
      cap = lbrace :: mid ++ [rbrace] := by
  unfold matchBody at h
  cases hdw : rest.dropWhile isPySpace with
  | nil => rw [hdw] at h; cases h
  | cons c body =>
    rw [hdw] at h
    have hIf : (if c = lbrace then findClose body [] else none) = some cap := h
    by_cases hc : c = lbrace
    · rw [if_pos hc] at hIf
      obtain ⟨mid, rest2, hbody, hcap, hsf⟩ := findClose_shape body [] cap hIf
      obtain ⟨rest3, hsf2⟩ := startsFence_decomp hsf
      have h0 : rest.takeWhile isPySpace ++ (c :: body) = rest := by
        rw [← hdw]
        exact List.takeWhile_append_dropWhile isPySpace rest
      have h2 : rest2.takeWhile isPySpace ++ (S "```" ++ rest3) = rest2 := by
        rw [← hsf2]
        exact List.takeWhile_append_dropWhile isPySpace rest2
      refine ⟨rest.takeWhile isPySpace, mid, rest2.takeWhile isPySpace, rest3,
        ?_, ?_, ?_, ?_⟩
      · conv_lhs => rw [← h0, hc, hbody, ← h2]
        simp [List.append_assoc]
      · intro x hx
        exact List.mem_takeWhile_imp hx
      · intro x hx
        exact List.mem_takeWhile_imp hx
      · rw [hcap]
        simp
    · rw [if_neg hc] at hIf
      cases hIf

lemma fenceFrom_cons_or (rest : Str) :
    fenceFrom (btChar :: btChar :: btChar :: rest) =
      ((if rest.take 4 = S "json" then matchBody (rest.drop 4) else none).or
        (matchBody rest)) := by
  cases hi : (if rest.take 4 = S "json" then matchBody (rest.drop 4) else none) with
  | some c2 =>
    have h0 : fenceFrom (btChar :: btChar :: btChar :: rest) = some c2 := by
      show (if btChar = btChar ∧ btChar = btChar ∧ btChar = btChar then
        (match (if rest.take 4 = S "json" then matchBody (rest.drop 4) else none) with
         | some cap => some cap
         | none => matchBody rest) else none) = some c2
      rw [if_pos ⟨rfl, rfl, rfl⟩, hi]
    rw [h0, Option.or_some]
  | none =>
    have h0 : fenceFrom (btChar :: btChar :: btChar :: rest) = matchBody rest := by
      show (if btChar = btChar ∧ btChar = btChar ∧ btChar = btChar then
        (match (if rest.take 4 = S "json" then matchBody (rest.drop 4) else none) with
         | some cap => some cap
         | none => matchBody rest) else none) = matchBody rest
      rw [if_pos ⟨rfl, rfl, rfl⟩, hi]
    rw [h0, Option.none_or]

lemma fenceFrom_shape (l cap : Str) (h : fenceFrom l = some cap) :
    ∃ lab ws1 mid ws2 post,
      l = S "```" ++ lab ++ ws1 ++ (lbrace :: mid ++ [rbrace]) ++ ws2 ++
        S "```" ++ post ∧
      (lab = [] ∨ lab = S "json") ∧
      (∀ c ∈ ws1, isPySpace c = true) ∧
      (∀ c ∈ ws2, isPySpace c = true) ∧
      cap = lbrace :: mid ++ [rbrace] := by
  match l with
  | [] => cases h
  | [c1] => cases h
  | [c1, c2] => cases h
  | c1 :: c2 :: c3 :: rest =>
    by_cases hbt : c1 = btChar ∧ c2 = btChar ∧ c3 = btChar
    · have hl3 : c1 :: c2 :: c3 :: rest = S "```" ++ rest := by
        rw [fence_chars, hbt.1, hbt.2.1, hbt.2.2]
        rfl
      rw [hbt.1, hbt.2.1, hbt.2.2, fenceFrom_cons_or] at h
      by_cases hjson : rest.take 4 = S "json"
      · rw [if_pos hjson] at h
        cases hm : matchBody (rest.drop 4) with
        | some cap2 =>
          rw [hm, Option.or_some] at h
          injection h with h2
          obtain ⟨ws1, mid, ws2, post, hr, hs1, hs2, hcap⟩ :=
            matchBody_shape (rest.drop 4) cap (by rw [hm, h2])
          refine ⟨S "json", ws1, mid, ws2, post, ?_, Or.inr rfl, hs1, hs2, hcap⟩
          have h4 : rest.take 4 ++ rest.drop 4 = rest := List.take_append_drop 4 rest
          rw [hl3, ← h4, hjson, hr]
          simp [List.append_assoc]
        | none =>
          rw [hm, Option.none_or] at h
          obtain ⟨ws1, mid, ws2, post, hr, hs1, hs2, hcap⟩ :=
            matchBody_shape rest cap h
          refine ⟨[], ws1, mid, ws2, post, ?_, Or.inl rfl, hs1, hs2, hcap⟩
          rw [hl3, hr]
          simp [List.append_assoc]
      · rw [if_neg hjson, Option.none_or] at h
        obtain ⟨ws1, mid, ws2, post, hr, hs1, hs2, hcap⟩ :=
          matchBody_shape rest cap h
        refine ⟨[], ws1, mid, ws2, post, ?_, Or.inl rfl, hs1, hs2, hcap⟩
        rw [hl3, hr]
        simp [List.append_assoc]
    · have h0 : fenceFrom (c1 :: c2 :: c3 :: rest) = none := by
        show (if c1 = btChar ∧ c2 = btChar ∧ c3 = btChar then
          (match (if rest.take 4 = S "json" then matchBody (rest.drop 4) else none) with
           | some cap => some cap
           | none => matchBody rest) else none) = none
        rw [if_neg hbt]
      rw [h0] at h
      cases h

lemma fenceSearch_shape : ∀ (l : Str), ∀ (cap : Str), fenceSearch l = some cap →
    ∃ pre rest, l = pre ++ rest ∧ fenceFrom rest = some cap := by
  intro l
  induction l with
  | nil => intro cap h; cases h
  | cons c r ih =>
    intro cap h
    unfold fenceSearch at h
    cases hf : fenceFrom (c :: r) with
    | some cap2 =>
      rw [hf] at h
      have h2 : some cap2 = some cap := h
      injection h2 with h2
      exact ⟨[], c :: r, rfl, by rw [hf, h2]⟩
    | none =>
      rw [hf] at h
      have h2 : fenceSearch r = some cap := h
      obtain ⟨pre, rest, hl, hff⟩ := ih cap h2
      exact ⟨c :: pre, rest, by rw [hl]; rfl, hff⟩

lemma fenceSearch_specMatch (l cap : Str) (h : fenceSearch l = some cap) :
    SpecFenceMatch l cap := by
  obtain ⟨pre, rest, hl, hff⟩ := fenceSearch_shape l cap h
  obtain ⟨lab, ws1, mid, ws2, post, hr, hlab, hs1, hs2, hcap⟩ :=
    fenceFrom_shape rest cap hff
  refine ⟨pre, lab, ws1, mid, ws2, post, ?_, hlab, hs1, hs2, hcap⟩
  rw [hl, hr]
  simp [List.append_assoc]

lemma findClose_total : ∀ (a b : Str), startsFence (b.dropWhile isPySpace) = true →
    ∀ acc, (findClose (a ++ rbrace :: b) acc).isSome = true := by
  intro a
  induction a with
  | nil =>
    intro b hb acc
    rw [List.nil_append]
    rw [show findClose (rbrace :: b) acc =
      (if rbrace = rbrace ∧ startsFence (b.dropWhile isPySpace) = true then
        some (lbrace :: acc.reverse ++ [rbrace])
      else findClose b (rbrace :: acc)) from rfl]
    rw [if_pos ⟨rfl, hb⟩]
    rfl
  | cons c a2 ih =>
    intro b hb acc
    rw [List.cons_append]
    rw [show findClose (c :: (a2 ++ rbrace :: b)) acc =
      (if c = rbrace ∧ startsFence ((a2 ++ rbrace :: b).dropWhile isPySpace) = true then
        some (lbrace :: acc.reverse ++ [rbrace])
      else findClose (a2 ++ rbrace :: b) (c :: acc)) from rfl]
    by_cases hc : c = rbrace ∧ startsFence ((a2 ++ rbrace :: b).dropWhile isPySpace) = true
    · rw [if_pos hc]
      rfl
    · rw [if_neg hc]
      exact ih b hb (c :: acc)

lemma matchBody_total (ws1 mid ws2 post : Str)
    (h1 : ∀ c ∈ ws1, isPySpace c = true) (h2 : ∀ c ∈ ws2, isPySpace c = true) :
    (matchBody (ws1 ++ (lbrace :: mid ++ [rbrace]) ++ ws2 ++ S "```" ++ post)).isSome
      = true := by
  have harr : ws1 ++ (lbrace :: mid ++ [rbrace]) ++ ws2 ++ S "```" ++ post =
      ws1 ++ lbrace :: (mid ++ rbrace :: (ws2 ++ (S "```" ++ post))) := by
    simp [List.append_assoc]
  rw [harr]
  unfold matchBody
  rw [dropWhile_space_cons ws1 h1 lbrace (by decide) _]
  show (if lbrace = lbrace then
    findClose (mid ++ rbrace :: (ws2 ++ (S "```" ++ post))) [] else none).isSome = true
  rw [if_pos rfl]
  have hb : startsFence ((ws2 ++ (S "```" ++ post)).dropWhile isPySpace) = true := by
    have hfp : S "```" ++ post = btChar :: btChar :: btChar :: post := by
      rw [fence_chars]
      rfl
    rw [hfp, dropWhile_space_cons ws2 h2 btChar (by decide) _, ← hfp]
    exact startsFence_fence post
  exact findClose_total mid (ws2 ++ (S "```" ++ post)) hb []

lemma fenceFrom_append_total (lab body : Str) (hlab : lab = [] ∨ lab = S "json")
    (hm : (matchBody body).isSome = true) :
    (fenceFrom (btChar :: btChar :: btChar :: (lab ++ body))).isSome = true := by
  rw [fenceFrom_cons_or]
  rcases hlab with rfl | rfl
  · rw [List.nil_append]
    cases hi : (if body.take 4 = S "json" then matchBody (body.drop 4) else none) with
    | some c2 => rw [Option.or_some]; rfl
    | none => rw [Option.none_or]; exact hm
  · have ht : (S "json" ++ body).take 4 = S "json" := by
      rw [show (4 : Nat) = (S "json").length from by decide]
      exact List.take_left (S "json") body
    have hd : (S "json" ++ body).drop 4 = body := by
      rw [show (4 : Nat) = (S "json").length from by decide]
      exact List.drop_left (S "json") body
    rw [if_pos ht, hd]
    cases hm2 : matchBody body with
    | some c2 => rw [Option.or_some]; rfl
    | none =>
      rw [hm2] at hm
      exact Bool.noConfusion hm

lemma fenceSearch_total : ∀ (pre rest : Str), (fenceFrom rest).isSome = true →
    (fenceSearch (pre ++ rest)).isSome = true := by
  intro pre
  induction pre with
  | nil =>
    intro rest h
    rw [List.nil_append]
    cases rest with
    | nil => exact Bool.noConfusion h
    | cons c r =>
      show (match fenceFrom (c :: r) with
        | some cap => some cap
        | none => fenceSearch r).isSome = true
      cases hf : fenceFrom (c :: r) with
      | some c2 => rfl
      | none =>
        rw [hf] at h
        exact Bool.noConfusion h
  | cons c pre2 ih =>
    intro rest h
    rw [List.cons_append]
    show (match fenceFrom (c :: (pre2 ++ rest)) with
      | some cap => some cap
      | none => fenceSearch (pre2 ++ rest)).isSome = true
    cases hf : fenceFrom (c :: (pre2 ++ rest)) with
    | some c2 => rfl
    | none => exact ih rest h

lemma specMatch_fenceSearch (l : Str) (h : ∃ cap, SpecFenceMatch l cap) :
    (fenceSearch l).isSome = true := by
  obtain ⟨cap, pre, lab, ws1, mid, ws2, post, hl, hlab, hs1, hs2, hcap⟩ := h
  have hff : (fenceFrom (btChar :: btChar :: btChar ::
      (lab ++ (ws1 ++ (lbrace :: mid ++ [rbrace]) ++ ws2 ++ S "```" ++ post)))).isSome
        = true :=
    fenceFrom_append_total lab
      (ws1 ++ (lbrace :: mid ++ [rbrace]) ++ ws2 ++ S "```" ++ post) hlab
      (matchBody_total ws1 mid ws2 post hs1 hs2)
  have hl2 : l = pre ++ (btChar :: btChar :: btChar ::
      (lab ++ (ws1 ++ (lbrace :: mid ++ [rbrace]) ++ ws2 ++ S "```" ++ post))) := by
    rw [hl, fence_chars]
    simp [List.append_assoc]
  rw [hl2]
  exact fenceSearch_total pre _ hff

lemma extract_json_fence (l cap : Str) (h : fenceSearch l = some cap) :
    _extract_json l = cap := by
  unfold _extract_json
  rw [h]

lemma extract_json_none_nil (l : Str) (hfs : fenceSearch l = none)
    (ht : l.dropWhile (fun c => ¬ c = lbrace) = []) : _extract_json l = [] := by
  unfold _extract_json
  rw [hfs, ht]

lemma extract_json_none_cons (l rest : Str) (hfs : fenceSearch l = none)
    (ht : l.dropWhile (fun c => ¬ c = lbrace) = lbrace :: rest) :
    _extract_json l = braceLoop (lbrace :: rest) 0 [] := by
  unfold _extract_json
  rw [hfs, ht]

/-- C4: `_extract_json` returns the capture of the fence pattern when one
matches (and the capture has the fenced brace-object shape); a fence match
exists exactly when the string decomposes as fence, optional json label,
whitespace, brace-delimited capture, whitespace, fence; with no fence match it
returns the slice from the first opening brace through the first position
where brace counts balance - that position holding a closing brace - and the
empty string when there is no opening brace or the counts never balance. -/
theorem extract_json_spec (l : Str) :
    (∀ cap, fenceSearch l = some cap → _extract_json l = cap ∧ SpecFenceMatch l cap) ∧
    ((∃ cap, SpecFenceMatch l cap) → (fenceSearch l).isSome = true) ∧
    (fenceSearch l = none →
      ((¬ lbrace ∈ l → _extract_json l = []) ∧
       (lbrace ∈ l →
         ((∀ k, ¬ balancedAt (l.dropWhile (fun c => ¬ c = lbrace)) k) →
            _extract_json l = []) ∧
         (∀ k, balancedAt (l.dropWhile (fun c => ¬ c = lbrace)) k →
            (∀ j, j < k → ¬ balancedAt (l.dropWhile (fun c => ¬ c = lbrace)) j) →
            _extract_json l = (l.dropWhile (fun c => ¬ c = lbrace)).take (k+1) ∧
            (l.dropWhile (fun c => ¬ c = lbrace))[k]? = some rbrace)))) := by
  refine ⟨?_, specMatch_fenceSearch l, ?_⟩
  · intro cap h
    exact ⟨extract_json_fence l cap h, fenceSearch_specMatch l cap h⟩
  · intro hfs
    constructor
    · intro hnl
      apply extract_json_none_nil l hfs
      rw [List.dropWhile_eq_nil_iff]
      intro x hx
      simp only [decide_eq_true_eq]
      intro heq
      apply hnl
      rw [← heq]
      exact hx
    · intro hl
      obtain ⟨rest, ht⟩ := dropWhile_lbrace_mem l hl
      have h0 : (l.dropWhile (fun c => ¬ c = lbrace))[0]? = some lbrace := by
        rw [ht]
        simp
      constructor
      · intro hnob
        rw [extract_json_none_cons l rest hfs ht, ← ht]
        apply braceLoop_nostop
        intro k hk
        rcases hk with ⟨hk1, hk2⟩
        rw [zero_add] at hk2
        by_cases hklen : k < (l.dropWhile (fun c => ¬ c = lbrace)).length
        · exact hnob k (balancedAt_iff_dep.mpr ⟨hklen, hk2⟩)
        · rw [List.getElem?_eq_none (Nat.le_of_not_lt hklen)] at hk1
          cases hk1
      · intro k hbal hmin
        obtain ⟨hklen, hkdep⟩ := balancedAt_iff_dep.mp hbal
        have hm2 : ∀ j, j < k →
            dep ((l.dropWhile (fun c => ¬ c = lbrace)).take (j+1)) ≠ 0 := by
          intro j hj hd
          exact hmin j hj (balancedAt_iff_dep.mpr ⟨Nat.lt_trans hj hklen, hd⟩)
        have hchar := stop_char (l.dropWhile (fun c => ¬ c = lbrace)) h0 k hklen hkdep hm2
        have hb2 : 0 + dep ((l.dropWhile (fun c => ¬ c = lbrace)).take (k+1)) = 0 := by
          rw [zero_add]
          exact hkdep
        have hb3 : ∀ j, j < k → ¬((l.dropWhile (fun c => ¬ c = lbrace))[j]? = some rbrace ∧
            0 + dep ((l.dropWhile (fun c => ¬ c = lbrace)).take (j+1)) = 0) := by
          intro j hj hcond
          have hz := hcond.2
          rw [zero_add] at hz
          exact hm2 j hj hz
        refine ⟨?_, hchar⟩
        rw [extract_json_none_cons l rest hfs ht, ← ht]
        rw [braceLoop_stop (l.dropWhile (fun c => ¬ c = lbrace)) 0 [] k hchar hb2 hb3]
        simp

theorem extract_json_spec_witness :
    fenceSearch w4a = some w4cap ∧ _extract_json w4a = w4cap ∧
    SpecFenceMatch w4a w4cap ∧
    fenceSearch w4b = none ∧ lbrace ∈ w4b ∧
    balancedAt (w4b.dropWhile (fun c => ¬ c = lbrace)) 2 ∧
    _extract_json w4b = (w4b.dropWhile (fun c => ¬ c = lbrace)).take (2+1) ∧
    (w4b.dropWhile (fun c => ¬ c = lbrace))[2]? = some rbrace := by
  have h1 : fenceSearch w4a = some w4cap := by decide
  have h2 : fenceSearch w4b = none := by decide
  have h3 : lbrace ∈ w4b := by decide
  have h4 : balancedAt (w4b.dropWhile (fun c => ¬ c = lbrace)) 2 := by decide
  have h5 : ∀ j, j < 2 → ¬ balancedAt (w4b.dropWhile (fun c => ¬ c = lbrace)) j := by
    decide
  have ha := (extract_json_spec w4a).1 w4cap h1
  have hb := ((extract_json_spec w4b).2.2 h2).2 h3
  have hc := hb.2 2 h4 h5
  exact ⟨h1, ha.1, ha.2, h2, h3, h4, hc.1, hc.2⟩


end AgentCollab
